import Mathlib

/-!
Verification of the WokiLite restaurant reservation engine
(backend sources under src/backend/src and the later snapshots under
src/unnamed) against its natural-language specification.

The embedding conventions, used throughout:

* Instants are modelled as natural numbers (the TypeScript code compares
  millisecond timestamps obtained from Date.getTime(); only the ordering and
  the +15-minute / +duration arithmetic matter, so one abstract "minute" unit
  is used).  Where the source subtracts possibly-negative amounts the model
  uses Int.
* Restaurant and sector identifiers are opaque strings compared only for
  equality and are kept as String.  Table and reservation identifiers are
  also opaque, but the source additionally sorts table-id arrays with
  JavaScript Array.prototype.sort (a total lexicographic order on the id
  strings); they are modelled as Nat, preserving equality and that total
  order.
* JavaScript Array.prototype.sort with a numeric comparator is a stable sort
  (ECMAScript 2019); it is modelled by List.insertionSort, which is stable.
* Database queries (drizzle where-clauses) plus the in-memory filters that
  follow them are modelled as filters over the list of stored rows, in row
  order.
* Customer name/phone/email and free-text notes are carried opaquely by the
  source and never examined; they are omitted from the record types.
-/

deriving instance DecidableEq for Except

namespace Woki

/-- Reservation status enumeration from src/backend/src/db/schema.ts
(`CONFIRMED` / `PENDING` / `CANCELLED`). -/
inductive RStatus where
  | confirmed
  | pending
  | cancelled
deriving DecidableEq, Repr

/-- A stored reservation row (src/unnamed/part_009, the latest snapshot of
reservation.repository.ts: it carries the `expiresAt` column used by the
pending-holds service).  Times are abstract instants; see the header. -/
structure Reservation where
  id : Nat
  restaurantId : String
  sectorId : String
  tableIds : List Nat
  partySize : Nat
  startTime : Nat
  endTime : Nat
  status : RStatus
  expiresAt : Option Nat
  updatedAt : Nat
deriving DecidableEq, Repr

/-- A physical table row (db/schema.ts): capacity bounds and owning sector. -/
structure Table where
  id : Nat
  sectorId : String
  minSize : Nat
  maxSize : Nat
deriving DecidableEq, Repr

/-- A shift in a restaurant configuration.  The source stores local times as
"HH:MM" strings and compares them lexicographically, which for this format
coincides with comparing minutes-of-day; shifts are modelled as minute-of-day
pairs. -/
structure Shift where
  startMin : Nat
  endMin : Nat
deriving DecidableEq, Repr

/-- A duration rule `{maxPartySize, durationMinutes}` (db/schema.ts). -/
structure DurationRule where
  maxPartySize : Nat
  durationMinutes : Nat
deriving DecidableEq, Repr

/-- Restaurant configuration row (db/schema.ts).  `tzOffset` abstracts the
IANA timezone: converting an absolute instant to local minute-of-day is
adding the offset modulo one day (the no-DST reading of date-fns-tz
`toZonedTime`; e.g. the spec's running example America/Argentina/Buenos_Aires
has no DST). -/
structure Restaurant where
  id : String
  tzOffset : Nat
  shifts : Option (List Shift)
  reservationDurationMinutes : Option Nat
  durationRules : Option (List DurationRule)
  minAdvanceMinutes : Option Nat
  maxAdvanceDays : Option Nat
  largeGroupThreshold : Option Nat
  pendingHoldTTLMinutes : Option Nat
  maxGuestsPerSlot : Option Nat
deriving DecidableEq, Repr

/-- Sector row: a named subdivision owned by one restaurant. -/
structure Sector where
  id : String
  restaurantId : String
deriving DecidableEq, Repr

/-- The persistent store: one list of rows per table, in row order. -/
structure Db where
  restaurants : List Restaurant
  sectors : List Sector
  tables : List Table
  reservations : List Reservation
deriving DecidableEq, Repr

/-- Error taxonomy of src/backend/src/utils/errors.ts (`Errors.NOT_FOUND`,
`Errors.NO_CAPACITY`, `Errors.OUTSIDE_SERVICE_WINDOW`,
`Errors.INVALID_FORMAT`). -/
inductive SvcErr where
  | notFound
  | noCapacity
  | outsideServiceWindow
  | invalidFormat
deriving DecidableEq, Repr

/-! ## Reservation repository (src/unnamed/part_009, the final snapshot of
src/backend/src/repositories/reservation.repository.ts) -/

/-- The status condition of the overlap query:
`or(eq(status,'CONFIRMED'), eq(status,'PENDING'))`. -/
def statusActive (r : Reservation) : Bool :=
  r.status == RStatus.confirmed || r.status == RStatus.pending

/-- `getOverlappingReservations(tableIds, start, end, excludeReservationId?)`:
the drizzle where-clause keeps CONFIRMED/PENDING rows and drops the excluded
id; the in-memory filter keeps rows with `r.start < end && r.end > start`
whose `tableIds` intersect the query set. -/
def getOverlappingReservations (store : List Reservation) (tableIds : List Nat)
    (startTime endTime : Nat) (excludeReservationId : Option Nat) : List Reservation :=
  let fromDb := store.filter fun r =>
    statusActive r &&
      (match excludeReservationId with
       | some ex => r.id != ex
       | none => true)
  fromDb.filter fun r =>
    decide (r.startTime < endTime) && decide (r.endTime > startTime) &&
      r.tableIds.any fun tid => tableIds.contains tid

/-! ## Duration policy (src/backend/src/utils/duration.ts) -/

/-- `calculateReservationDuration(partySize, durationRules?, default = 90)`:
with no rules the default wins; otherwise the rules are stably sorted
ascending by `maxPartySize` (JS `sort((a,b) => a.maxPartySize -
b.maxPartySize)`), the first rule with `partySize <= maxPartySize` wins, and
if the party exceeds every threshold the last (largest) sorted rule wins. -/
def calculateReservationDuration (partySize : Nat)
    (durationRules : Option (List DurationRule)) (defaultDurationMinutes : Nat) : Nat :=
  match durationRules with
  | none => defaultDurationMinutes
  | some rules =>
    if rules.isEmpty then defaultDurationMinutes
    else
      let sortedRules :=
        List.insertionSort (fun a b => a.maxPartySize ≤ b.maxPartySize) rules
      match sortedRules.find? (fun rule => partySize ≤ rule.maxPartySize) with
      | some rule => rule.durationMinutes
      | none =>
        match sortedRules.getLast? with
        | some rule => rule.durationMinutes
        | none => defaultDurationMinutes

/-! ## Helper lemmas on lists -/

/-- Over a list that is pairwise non-decreasing in a key, the first element
satisfying a predicate has the least key among all satisfying elements. -/
theorem find?_key_min {α : Type} {k : α → Nat} {p : α → Bool} {l : List α} {x : α}
    (hs : List.Pairwise (fun a b => k a ≤ k b) l)
    (hf : l.find? p = some x) :
    ∀ y ∈ l, p y = true → k x ≤ k y := by
  induction l with
  | nil => simp at hf
  | cons h t ih =>
    rcases List.pairwise_cons.mp hs with ⟨hh, ht⟩
    by_cases hp : p h
    · rw [List.find?_cons_of_pos _ hp] at hf
      cases hf
      intro y hy _
      rcases List.mem_cons.mp hy with rfl | hyt
      · exact le_refl _
      · exact hh y hyt
    · rw [List.find?_cons_of_neg _ hp] at hf
      intro y hy hpy
      rcases List.mem_cons.mp hy with rfl | hyt
      · exact absurd hpy hp
      · exact ih ht hf y hyt hpy

/-- Over a pairwise non-decreasing list, the last element has the greatest
key. -/
theorem getLast?_key_max {α : Type} {k : α → Nat} {l : List α} {m : α}
    (hs : List.Pairwise (fun a b => k a ≤ k b) l)
    (hl : l.getLast? = some m) :
    ∀ x ∈ l, k x ≤ k m := by
  induction l with
  | nil => simp at hl
  | cons h t ih =>
    rcases List.pairwise_cons.mp hs with ⟨hh, ht⟩
    cases t with
    | nil =>
      simp only [List.getLast?_singleton] at hl
      cases hl
      intro x hx
      rcases List.mem_cons.mp hx with rfl | hxt
      · exact le_refl _
      · simp at hxt
    | cons h2 t2 =>
      have hl2 : (h2 :: t2).getLast? = some m := by
        simpa [List.getLast?_cons_cons] using hl
      intro x hx
      rcases List.mem_cons.mp hx with rfl | hxt
      · have hm : m ∈ h2 :: t2 := List.mem_of_mem_getLast? hl2
        exact hh m hm
      · exact ih ht hl2 x hxt

/-- In a list whose ids are pairwise distinct, looking up the id of a member
finds exactly that member. -/
theorem find?_id_unique {α : Type} {f : α → Nat} {l : List α} {a : α}
    (hnd : (l.map f).Nodup) (ha : a ∈ l) :
    l.find? (fun x => f x == f a) = some a := by
  induction l with
  | nil => simp at ha
  | cons h t ih =>
    simp only [List.map_cons, List.nodup_cons] at hnd
    rcases List.mem_cons.mp ha with rfl | hat
    · simp [List.find?_cons_of_pos]
    · have hne : f h ≠ f a := by
        intro he
        exact hnd.1 (he ▸ List.mem_map_of_mem f hat)
      rw [List.find?_cons_of_neg _ (by simp [hne])]
      exact ih hnd.2 hat

end Woki

/-! # Claim C1 — overlap query semantics -/

namespace Woki

/-- C1: the overlap query returns exactly the stored active reservations with
strict interval overlap and table intersection; adjacency at an endpoint does
not overlap.  The second conjunct is the B1 boundary instance: a stored
reservation on table 1 over `[1200, 1275)` is not reported for the adjacent
query window `[1275, 1350)` on the same table. -/
theorem c1_overlap_query_characterization :
    (∀ (store : List Reservation) (tableIds : List Nat) (s e : Nat)
        (excl : Option Nat) (r : Reservation),
      r ∈ getOverlappingReservations store tableIds s e excl ↔
        r ∈ store ∧ (r.status = RStatus.confirmed ∨ r.status = RStatus.pending) ∧
          (∀ ex, excl = some ex → r.id ≠ ex) ∧
          r.startTime < e ∧ r.endTime > s ∧ ∃ t ∈ r.tableIds, t ∈ tableIds) ∧
    getOverlappingReservations
      [{ id := 1, restaurantId := "R1", sectorId := "S1", tableIds := [1],
         partySize := 2, startTime := 1200, endTime := 1275,
         status := RStatus.confirmed, expiresAt := none, updatedAt := 0 }]
      [1] 1275 1350 none = [] := by
  constructor
  · intro store tableIds s e excl r
    simp only [getOverlappingReservations, List.mem_filter, statusActive]
    constructor
    · rintro ⟨⟨hmem, hdb⟩, hfil⟩
      simp only [Bool.and_eq_true, decide_eq_true_eq, List.any_eq_true,
        List.elem_iff, Bool.or_eq_true, beq_iff_eq] at hdb hfil
      refine ⟨hmem, hdb.1, ?_, hfil.1.1, hfil.1.2, ?_⟩
      · intro ex hex
        subst hex
        simpa using hdb.2
      · simpa [decide_eq_true_eq] using hfil.2
    · rintro ⟨hmem, hst, hex, hlt, hgt, t, ht, htq⟩
      refine ⟨⟨hmem, ?_⟩, ?_⟩
      · simp only [Bool.and_eq_true, Bool.or_eq_true, beq_iff_eq]
        refine ⟨hst, ?_⟩
        cases excl with
        | none => simp
        | some ex => simpa using hex ex rfl
      · simp only [Bool.and_eq_true, decide_eq_true_eq, List.any_eq_true,
          List.elem_iff]
        exact ⟨⟨hlt, hgt⟩, t, ht, by simpa using htq⟩
  · rfl

end Woki

/-! # Claim C5 — duration policy -/

namespace Woki

/-- C5: the duration function returns the default when there are no rules;
otherwise, when some rule threshold covers the party, the winning duration
belongs to a covering rule with the least threshold (the first covering rule
in ascending `maxPartySize` order); and when the party exceeds every
threshold, the winner is a rule with the greatest threshold.  It is a plain
function of its arguments (determinism and purity are by construction). -/
theorem c5_duration_policy :
    ∀ (p : Nat) (rules : List DurationRule) (dflt : Nat),
      (calculateReservationDuration p none dflt = dflt ∧
       calculateReservationDuration p (some []) dflt = dflt) ∧
      ((∃ r ∈ rules, p ≤ r.maxPartySize) →
        ∃ r ∈ rules, p ≤ r.maxPartySize ∧
          calculateReservationDuration p (some rules) dflt = r.durationMinutes ∧
          ∀ r2 ∈ rules, p ≤ r2.maxPartySize → r.maxPartySize ≤ r2.maxPartySize) ∧
      (rules ≠ [] → (∀ r ∈ rules, r.maxPartySize < p) →
        ∃ r ∈ rules,
          calculateReservationDuration p (some rules) dflt = r.durationMinutes ∧
          ∀ r2 ∈ rules, r2.maxPartySize ≤ r.maxPartySize) := by
  intro p rules dflt
  refine ⟨⟨rfl, rfl⟩, ?_, ?_⟩
  · rintro ⟨r0, hr0, hp0⟩
    have hne : rules.isEmpty = false := by
      cases rules with
      | nil => simp at hr0
      | cons a t => rfl
    set sorted := List.insertionSort (fun a b => a.maxPartySize ≤ b.maxPartySize) rules
      with hsorted
    have hperm : sorted.Perm rules := List.perm_insertionSort _ rules
    have hsort : List.Pairwise (fun a b => a.maxPartySize ≤ b.maxPartySize) sorted := by
      haveI : IsTotal DurationRule (fun a b => a.maxPartySize ≤ b.maxPartySize) :=
        ⟨fun a b => Nat.le_total a.maxPartySize b.maxPartySize⟩
      haveI : IsTrans DurationRule (fun a b => a.maxPartySize ≤ b.maxPartySize) :=
        ⟨fun a b c => Nat.le_trans⟩
      exact List.sorted_insertionSort _ rules
    have hex : ∃ x ∈ sorted, (fun rule => decide (p ≤ rule.maxPartySize)) x = true := by
      exact ⟨r0, hperm.mem_iff.mpr hr0, by simpa using hp0⟩
    obtain ⟨r, hfind⟩ := Option.isSome_iff_exists.mp (List.find?_isSome.mpr hex)
    have hrp : p ≤ r.maxPartySize := by
      simpa using List.find?_some hfind
    have hrmem : r ∈ rules := hperm.mem_iff.mp (List.mem_of_find?_eq_some hfind)
    refine ⟨r, hrmem, hrp, ?_, ?_⟩
    · simp only [calculateReservationDuration, hne, Bool.false_eq_true, if_false,
        ← hsorted, hfind]
    · intro r2 hr2 hp2
      exact find?_key_min (k := fun x => x.maxPartySize) hsort hfind r2
        (hperm.mem_iff.mpr hr2) (by simpa using hp2)
  · intro hne hall
    have hne2 : rules.isEmpty = false := by
      cases rules with
      | nil => exact absurd rfl hne
      | cons a t => rfl
    set sorted := List.insertionSort (fun a b => a.maxPartySize ≤ b.maxPartySize) rules
      with hsorted
    have hperm : sorted.Perm rules := List.perm_insertionSort _ rules
    have hsort : List.Pairwise (fun a b => a.maxPartySize ≤ b.maxPartySize) sorted := by
      haveI : IsTotal DurationRule (fun a b => a.maxPartySize ≤ b.maxPartySize) :=
        ⟨fun a b => Nat.le_total a.maxPartySize b.maxPartySize⟩
      haveI : IsTrans DurationRule (fun a b => a.maxPartySize ≤ b.maxPartySize) :=
        ⟨fun a b c => Nat.le_trans⟩
      exact List.sorted_insertionSort _ rules
    have hfind : sorted.find? (fun rule => p ≤ rule.maxPartySize) = none := by
      apply List.find?_eq_none.mpr
      intro x hx
      simp only [decide_eq_true_eq, not_le]
      exact hall x (hperm.mem_iff.mp hx)
    have hsne : sorted ≠ [] := by
      intro h0
      exact hne (List.Perm.nil_eq (h0 ▸ hperm)).symm
    obtain ⟨m, hm⟩ := Option.isSome_iff_exists.mp
      (List.getLast?_isSome.mpr hsne)
    refine ⟨m, hperm.mem_iff.mp (List.mem_of_mem_getLast? hm), ?_, ?_⟩
    · simp only [calculateReservationDuration, hne2, Bool.false_eq_true, if_false,
        ← hsorted, hfind, hm]
    · intro r2 hr2
      exact getLast?_key_max (k := fun x => x.maxPartySize) hsort hm r2
        (hperm.mem_iff.mpr hr2)

end Woki

/-! # Claim C2 — lock manager (src/backend/src/utils/locks.ts) -/

namespace Woki

/-- A lock key.  The source builds the Redis key string
`lock:sector:{sectorId}:slot:{slotISO}` with the slot instant canonicalized
to UTC ISO-8601; the (sectorId, slot-instant) pair determines the string and
ISO formatting is injective and order-preserving, so a key is modelled as the
pair. -/
abbrev LockKey := String × Nat

/-- The Redis state seen by the lock manager: an association list from keys
to the holding token; the first binding of a key is its current value and an
unbound key is free.  The per-key TTL only bounds crashed holders in real
time and has no counterpart in this sequential model. -/
abbrev LockStore := List (LockKey × String)

/-- `redis.get(key)` as used by the release script. -/
def lsGet (σ : LockStore) (k : LockKey) : Option String :=
  (σ.find? fun p => p.1 == k).map (·.2)

/-- `redis.set(key, token, PX ttl, NX)`: succeeds (returns the new state)
only when the key is absent. -/
def lsSetNX (σ : LockStore) (k : LockKey) (tok : String) : Option LockStore :=
  if (lsGet σ k).isSome then none else some ((k, tok) :: σ)

/-- The RELEASE_SCRIPT Lua step: delete the key only if its stored value
equals the caller's token. -/
def lsRelease (σ : LockStore) (k : LockKey) (tok : String) : LockStore :=
  if lsGet σ k == some tok then σ.filter (fun p => p.1 != k) else σ

/-- Token-conditioned delete of every key in the list, in list order (the
release handle, and the rollback loop of the failure path). -/
def releaseAll (σ : LockStore) (keys : List LockKey) (tok : String) : LockStore :=
  keys.foldl (fun s k => lsRelease s k tok) σ

/-- `get15MinSlotsInRange(startISO, endISO)`: every 15-minute step from
`start` while strictly before `end` (closed form of the source's while
loop). -/
def get15MinSlotsInRange (s e : Nat) : List Nat :=
  (List.range ((e - s + 14) / 15)).map fun i => s + 15 * i

/-- `lockKey(sectorId, slotISO)`. -/
def lockKey (sectorId : String) (slot : Nat) : LockKey := (sectorId, slot)

/-- The sorted key list of `acquireReservationLocks`: the source sorts the
key strings, which for a fixed sector prefix and fixed-width ISO instants is
the chronological slot order, modelled by sorting on the slot component. -/
def sectorLockKeys (sectorId : String) (s e : Nat) : List LockKey :=
  List.insertionSort (fun a b => a.2 ≤ b.2)
    ((get15MinSlotsInRange s e).map (lockKey sectorId))

/-- Outcome of an acquisition attempt: either every key was set (the
acquired list is returned; its release handle is `releaseAll`), or the
fail-fast `NO_CAPACITY("Lock busy ...")` outcome, carrying the state after
the rollback of the partially acquired keys. -/
inductive AcqResult where
  | ok (σ : LockStore) (acquired : List LockKey)
  | busy (σ : LockStore)
deriving DecidableEq, Repr

/-- The acquisition loop of `acquireReservationLocks`: for each key in
order, SET-NX; on the first already-held key, token-conditioned-delete every
previously acquired key and fail. -/
def acquireLoop (σ : LockStore) (keys : List LockKey) (tok : String)
    (acquired : List LockKey) : AcqResult :=
  match keys with
  | [] => .ok σ acquired
  | k :: rest =>
    match lsSetNX σ k tok with
    | some σ2 => acquireLoop σ2 rest tok (acquired ++ [k])
    | none => .busy (releaseAll σ acquired tok)

/-- `acquireReservationLocks({sectorId, startISO, endISO})` with a fresh
token. -/
def acquireReservationLocks (σ : LockStore) (sectorId : String) (s e : Nat)
    (tok : String) : AcqResult :=
  acquireLoop σ (sectorLockKeys sectorId s e) tok []

/-- The state after every key in the list has been SET-NX to the token, in
list order. -/
def pushAll (σ : LockStore) (keys : List LockKey) (tok : String) : LockStore :=
  keys.foldl (fun s k => (k, tok) :: s) σ

theorem lsGet_eq_none_iff (σ : LockStore) (k : LockKey) :
    lsGet σ k = none ↔ ∀ p ∈ σ, p.1 ≠ k := by
  simp [lsGet, List.find?_eq_none]

theorem pushAll_append (σ : LockStore) (xs : List LockKey) (x : LockKey) (tok : String) :
    pushAll σ (xs ++ [x]) tok = (x, tok) :: pushAll σ xs tok := by
  simp [pushAll, List.foldl_append]

theorem lsGet_cons (σ : LockStore) (a k : LockKey) (tok : String) :
    lsGet ((a, tok) :: σ) k = if k = a then some tok else lsGet σ k := by
  by_cases hka : k = a
  · subst hka; simp [lsGet]
  · have hne : ((a, tok).1 == k) = false := by
      simp only [beq_eq_false_iff_ne]
      exact fun h => hka h.symm
    simp [lsGet, List.find?, hne, hka]

theorem lsGet_pushAll (σ : LockStore) (keys : List LockKey) (tok : String) (k : LockKey) :
    lsGet (pushAll σ keys tok) k = if k ∈ keys then some tok else lsGet σ k := by
  induction keys generalizing σ with
  | nil => simp [pushAll]
  | cons a ks ih =>
    have hstep : pushAll σ (a :: ks) tok = pushAll ((a, tok) :: σ) ks tok := rfl
    rw [hstep, ih, lsGet_cons]
    by_cases hk : k ∈ ks
    · simp [hk]
    · by_cases hka : k = a
      · simp [hk, hka]
      · simp [hk, hka]

theorem pushAll_eq_reverse (σ : LockStore) (keys : List LockKey) (tok : String) :
    pushAll σ keys tok = (keys.reverse.map fun k => (k, tok)) ++ σ := by
  induction keys generalizing σ with
  | nil => simp [pushAll]
  | cons a ks ih =>
    have hstep : pushAll σ (a :: ks) tok = pushAll ((a, tok) :: σ) ks tok := rfl
    rw [hstep, ih]
    simp

theorem releaseAll_pushAll (σ : LockStore) (keys : List LockKey) (tok : String)
    (hfree : ∀ k ∈ keys, lsGet σ k = none) (hnd : keys.Nodup) :
    releaseAll (pushAll σ keys tok) keys tok = σ := by
  induction keys generalizing σ with
  | nil => rfl
  | cons a ks ih =>
    have hnd2 := List.nodup_cons.mp hnd
    have hstep : pushAll σ (a :: ks) tok = pushAll ((a, tok) :: σ) ks tok := rfl
    have hrel : releaseAll (pushAll σ (a :: ks) tok) (a :: ks) tok
        = releaseAll (lsRelease (pushAll σ (a :: ks) tok) a tok) ks tok := rfl
    have hget : lsGet (pushAll σ (a :: ks) tok) a = some tok := by
      rw [lsGet_pushAll]; simp
    have hfilter : (pushAll σ (a :: ks) tok).filter (fun p => p.1 != a)
        = pushAll σ ks tok := by
      rw [hstep, pushAll_eq_reverse, pushAll_eq_reverse, List.filter_append]
      have hpart1 : ((ks.reverse.map fun k => (k, tok)).filter (fun p => p.1 != a))
          = ks.reverse.map fun k => (k, tok) := by
        apply List.filter_eq_self.mpr
        intro p hp
        rcases List.mem_map.mp hp with ⟨k, hk, rfl⟩
        have hk2 : k ∈ ks := List.mem_reverse.mp hk
        have hka : k ≠ a := fun h => hnd2.1 (h ▸ hk2)
        simpa using hka
      have hpart2 : (((a, tok) :: σ).filter (fun p => p.1 != a)) = σ := by
        rw [List.filter_cons]
        rw [if_neg (by simp)]
        apply List.filter_eq_self.mpr
        intro p hp
        have hpa : p.1 ≠ a :=
          (lsGet_eq_none_iff σ a).mp (hfree a (List.mem_cons_self a ks)) p hp
        simpa using hpa
      rw [hpart1, hpart2]
    have hlsr : lsRelease (pushAll σ (a :: ks) tok) a tok = pushAll σ ks tok := by
      simp only [lsRelease, hget, beq_self_eq_true, if_true]
      exact hfilter
    rw [hrel, hlsr]
    exact ih σ (fun k hk => hfree k (List.mem_cons_of_mem a hk)) hnd2.2

theorem acquireLoop_all_free (keys : List LockKey) (σ : LockStore) (tok : String)
    (acq : List LockKey)
    (hfree : ∀ k ∈ keys, lsGet σ k = none) (hnd : keys.Nodup) :
    acquireLoop σ keys tok acq = .ok (pushAll σ keys tok) (acq ++ keys) := by
  induction keys generalizing σ acq with
  | nil => simp [acquireLoop, pushAll]
  | cons a ks ih =>
    have ha : lsGet σ a = none := hfree a (List.mem_cons_self a ks)
    have hset : lsSetNX σ a tok = some ((a, tok) :: σ) := by
      simp [lsSetNX, ha]
    have hnd2 := List.nodup_cons.mp hnd
    have hfree2 : ∀ k ∈ ks, lsGet ((a, tok) :: σ) k = none := by
      intro k hk
      rw [lsGet_cons]
      have hka : k ≠ a := fun h => hnd2.1 (h ▸ hk)
      rw [if_neg hka]
      exact hfree k (List.mem_cons_of_mem a hk)
    show (match lsSetNX σ a tok with
      | some σ2 => acquireLoop σ2 ks tok (acq ++ [a])
      | none => AcqResult.busy (releaseAll σ acq tok)) = _
    rw [hset]
    show acquireLoop ((a, tok) :: σ) ks tok (acq ++ [a]) = _
    rw [ih ((a, tok) :: σ) (acq ++ [a]) hfree2 hnd2.2]
    have hpush : pushAll ((a, tok) :: σ) ks tok = pushAll σ (a :: ks) tok := rfl
    rw [hpush]
    simp

theorem acquireLoop_busy (keys : List LockKey) (σ0 : LockStore) (tok : String)
    (acq : List LockKey)
    (hfree : ∀ k ∈ acq, lsGet σ0 k = none)
    (hnd : (acq ++ keys).Nodup)
    (hheld : ∃ k ∈ keys, (lsGet (pushAll σ0 acq tok) k).isSome) :
    acquireLoop (pushAll σ0 acq tok) keys tok acq = .busy σ0 := by
  induction keys generalizing acq with
  | nil => simp at hheld
  | cons a ks ih =>
    have hndparts := List.nodup_append.mp hnd
    by_cases hget : (lsGet (pushAll σ0 acq tok) a).isSome
    · have hsetfail : lsSetNX (pushAll σ0 acq tok) a tok = none := by
        simp [lsSetNX, hget]
      show (match lsSetNX (pushAll σ0 acq tok) a tok with
        | some σ2 => acquireLoop σ2 ks tok (acq ++ [a])
        | none => AcqResult.busy (releaseAll (pushAll σ0 acq tok) acq tok)) = _
      rw [hsetfail, releaseAll_pushAll σ0 acq tok hfree hndparts.1]
    · have hgetn : lsGet (pushAll σ0 acq tok) a = none := by
        cases h : lsGet (pushAll σ0 acq tok) a with
        | none => rfl
        | some v => exact absurd (by simp [h]) hget
      have hset : lsSetNX (pushAll σ0 acq tok) a tok
          = some ((a, tok) :: pushAll σ0 acq tok) := by
        simp [lsSetNX, hgetn]
      have hnotin : a ∉ acq := by
        intro hmem
        rw [lsGet_pushAll] at hgetn
        simp [hmem] at hgetn
      have hfree2 : ∀ k ∈ acq ++ [a], lsGet σ0 k = none := by
        intro k hk
        rcases List.mem_append.mp hk with hk | hk
        · exact hfree k hk
        · have hk2 : k = a := by simpa using hk
          subst hk2
          rw [lsGet_pushAll, if_neg hnotin] at hgetn
          exact hgetn
      have hpush : (a, tok) :: pushAll σ0 acq tok = pushAll σ0 (acq ++ [a]) tok :=
        (pushAll_append σ0 acq a tok).symm
      have hnd2 : ((acq ++ [a]) ++ ks).Nodup := by
        have heq : (acq ++ [a]) ++ ks = acq ++ (a :: ks) := by simp
        rw [heq]
        exact hnd
      have hheld2 : ∃ k ∈ ks, (lsGet (pushAll σ0 (acq ++ [a]) tok) k).isSome := by
        rcases hheld with ⟨k, hk, hkh⟩
        rcases List.mem_cons.mp hk with rfl | hk2
        · exact absurd hkh (by simp [hgetn])
        · refine ⟨k, hk2, ?_⟩
          rw [← hpush, lsGet_cons]
          have hka : k ≠ a := by
            intro h
            subst h
            exact (List.nodup_cons.mp hndparts.2.1).1 hk2
          rw [if_neg hka]
          exact hkh
      show (match lsSetNX (pushAll σ0 acq tok) a tok with
        | some σ2 => acquireLoop σ2 ks tok (acq ++ [a])
        | none => AcqResult.busy (releaseAll (pushAll σ0 acq tok) acq tok)) = _
      rw [hset, hpush]
      exact ih (acq ++ [a]) hfree2 hnd2 hheld2

theorem sectorLockKeys_nodup (sectorId : String) (s e : Nat) :
    (sectorLockKeys sectorId s e).Nodup := by
  have h1 : (get15MinSlotsInRange s e).Nodup := by
    refine (List.nodup_range _).map ?_
    intro x y hxy
    change s + 15 * x = s + 15 * y at hxy
    omega
  have h2 : ((get15MinSlotsInRange s e).map (lockKey sectorId)).Nodup := by
    refine h1.map ?_
    intro x y hxy
    simpa [lockKey, Prod.ext_iff] using hxy
  exact ((List.perm_insertionSort (fun a b => a.2 ≤ b.2) _).symm).nodup h2

/-- C2: acquisition is all-or-nothing.  If every per-slot key of the interval
is free, all of them are set to the caller's token (other keys untouched) and
invoking the release handle (a token-conditioned delete of every acquired
key) restores the original state; if any key in the sorted key sequence is
already held, the whole call fails with `NO_CAPACITY("Lock busy ...")` and
the resulting state is exactly the original one — in particular no key is
left held by this caller. -/
theorem c2_lock_acquisition_all_or_nothing :
    ∀ (σ : LockStore) (sectorId : String) (s e : Nat) (tok : String),
      ((∀ k ∈ sectorLockKeys sectorId s e, lsGet σ k = none) →
        acquireReservationLocks σ sectorId s e tok =
          .ok (pushAll σ (sectorLockKeys sectorId s e) tok) (sectorLockKeys sectorId s e) ∧
        (∀ k ∈ sectorLockKeys sectorId s e,
          lsGet (pushAll σ (sectorLockKeys sectorId s e) tok) k = some tok) ∧
        (∀ k : LockKey, k ∉ sectorLockKeys sectorId s e →
          lsGet (pushAll σ (sectorLockKeys sectorId s e) tok) k = lsGet σ k) ∧
        releaseAll (pushAll σ (sectorLockKeys sectorId s e) tok)
          (sectorLockKeys sectorId s e) tok = σ) ∧
      ((∃ k ∈ sectorLockKeys sectorId s e, (lsGet σ k).isSome) →
        acquireReservationLocks σ sectorId s e tok = .busy σ) := by
  intro σ sectorId s e tok
  have hnd := sectorLockKeys_nodup sectorId s e
  constructor
  · intro hfree
    refine ⟨?_, ?_, ?_, ?_⟩
    · simpa [acquireReservationLocks] using
        acquireLoop_all_free (sectorLockKeys sectorId s e) σ tok [] hfree hnd
    · intro k hk
      rw [lsGet_pushAll]
      simp [hk]
    · intro k hk
      rw [lsGet_pushAll]
      simp [hk]
    · exact releaseAll_pushAll σ _ tok hfree hnd
  · intro hheld
    have hres := acquireLoop_busy (sectorLockKeys sectorId s e) σ tok []
      (by simp) (by simpa using hnd) (by simpa [pushAll] using hheld)
    simpa [acquireReservationLocks, pushAll] using hres

/-- C2 witness: concrete success over the free interval [0, 30) of sector S1
(keys for slots 0 and 15), and concrete busy failure when the slot-15 key is
already held by another token. -/
theorem c2_lock_witness :
    (acquireReservationLocks [] "S1" 0 30 "tokA" =
        .ok (pushAll [] (sectorLockKeys "S1" 0 30) "tokA") (sectorLockKeys "S1" 0 30) ∧
      (∀ k ∈ sectorLockKeys "S1" 0 30,
        lsGet (pushAll [] (sectorLockKeys "S1" 0 30) "tokA") k = some "tokA") ∧
      (∀ k : LockKey, k ∉ sectorLockKeys "S1" 0 30 →
        lsGet (pushAll [] (sectorLockKeys "S1" 0 30) "tokA") k = lsGet [] k) ∧
      releaseAll (pushAll [] (sectorLockKeys "S1" 0 30) "tokA")
        (sectorLockKeys "S1" 0 30) "tokA" = []) ∧
    acquireReservationLocks [(("S1", 15), "other")] "S1" 0 30 "tokA" =
      .busy [(("S1", 15), "other")] :=
  ⟨(c2_lock_acquisition_all_or_nothing [] "S1" 0 30 "tokA").1 (by decide),
   (c2_lock_acquisition_all_or_nothing [(("S1", 15), "other")] "S1" 0 30 "tokA").2
     (by decide)⟩

end Woki

/-! # Claim C4 — 15-minute slot generation (src/unnamed/part_008, utils/datetime.ts;
caller src/backend/src/services/availability.service.ts) -/

namespace Woki

/-- date-fns `eachMinuteOfInterval({start, end}, {step: 15})`: every 15th
minute `t` with `start ≤ t ≤ end` (the interval end is inclusive). -/
def eachMinuteStep15 (s e : Int) : List Int :=
  if s ≤ e then (List.range ((e - s).toNat / 15 + 1)).map (fun i : Nat => s + 15 * (i : Int))
  else []

/-- `generate15MinSlots(date, timezone, shifts?)` from src/unnamed/part_008.
`dayStart` is the absolute instant of local midnight (`getZonedDayStartUTC`);
a shift's local "HH:MM" bound converts to an absolute instant by adding its
minute-of-day to `dayStart` (`localTimeToUTC`; no-DST abstraction as in the
`Restaurant` doc).  With no shifts the whole local day is used; either way
the tail is trimmed by the hard-coded 90 minutes, clamped so the shift start
itself is always generated (`actualEnd = max(shiftStart, shiftEnd - 90)`). -/
def generate15MinSlots (dayStart : Int) (shifts : Option (List Shift)) : List Int :=
  match shifts with
  | none => eachMinuteStep15 dayStart (dayStart + (24 * 60 - 90))
  | some [] => eachMinuteStep15 dayStart (dayStart + (24 * 60 - 90))
  | some ss =>
    ss.flatMap fun sh =>
      let shiftStart : Int := dayStart + sh.startMin
      let shiftEnd : Int := dayStart + sh.endMin
      let maxSlotStart := shiftEnd - 90
      let actualEnd := if shiftStart > maxSlotStart then shiftStart else maxSlotStart
      eachMinuteStep15 shiftStart actualEnd

/-- The `maxDuration` computed by `getAvailability` step 7
(availability.service.ts): `Math.max` over the rule durations when rules
exist, else the party-size duration.  It is passed to the slot generator —
which has no parameter for it. -/
def maxDurationMinutes (rules : Option (List DurationRule)) (fallback : Nat) : Nat :=
  match rules with
  | some (r :: rs) => (r :: rs).foldl (fun m x => max m x.durationMinutes) 0
  | _ => fallback

theorem mem_eachMinuteStep15 (s e t : Int) :
    t ∈ eachMinuteStep15 s e ↔ ∃ k : Nat, t = s + 15 * k ∧ t ≤ e := by
  unfold eachMinuteStep15
  by_cases hse : s ≤ e
  · rw [if_pos hse]
    constructor
    · intro hmem
      obtain ⟨i, hi, hfi⟩ := List.mem_map.mp hmem
      rw [List.mem_range] at hi
      refine ⟨i, hfi.symm, ?_⟩
      have hle : i ≤ (e - s).toNat / 15 := Nat.lt_succ_iff.mp hi
      have h2 : 15 * i ≤ (e - s).toNat := by
        calc 15 * i ≤ 15 * ((e - s).toNat / 15) := Nat.mul_le_mul_left 15 hle
        _ ≤ (e - s).toNat := Nat.mul_div_le _ 15
      omega
    · rintro ⟨k, rfl, hk⟩
      refine List.mem_map.mpr ⟨k, ?_, rfl⟩
      rw [List.mem_range]
      have h2 : (15 : Int) * k ≤ e - s := by omega
      have h3 : 15 * k ≤ (e - s).toNat := by omega
      omega
  · rw [if_neg hse]
    simp only [List.not_mem_nil, false_iff, not_exists]
    intro k hk
    omega

theorem if_gt_eq_max (a b : Int) : (if a > b then a else b) = max a b := by
  rcases le_or_lt a b with h | h
  · rw [if_neg (by omega), max_eq_right h]
  · rw [if_pos h, max_eq_left (le_of_lt h)]

/-- C4 counterexample.  Restaurant with a single shift 20:00–23:45 (minutes
1200–1425 of the local day) and duration-rule table whose maximum producible
duration is 150 minutes: the generator emits the local slot 22:15 (minute
1335), from which the longest configured reservation ends at 00:45, after
the shift end — the claim says exactly the slots with `t + D_max ≤ shiftEnd`
are produced, which would exclude it. -/
theorem c4_counterexample :
    1335 ∈ generate15MinSlots 0 (some [⟨1200, 1425⟩]) ∧
    maxDurationMinutes (some [⟨2, 150⟩]) 90 = 150 ∧
    ¬(1335 + 150 ≤ 1425) := by
  refine ⟨?_, rfl, by decide⟩
  decide

/-- C4 amended: slot generation ignores the duration-rule maximum (the
`maxDuration` argument of the caller has no parameter in the generator) and
trims each shift tail by the hard-coded default of 90 minutes, clamped at
the shift start: the generated instants are exactly the 15-minute steps `t`
from each shift start with `t ≤ max(shiftStart, shiftEnd − 90)` (so a shift
shorter than 90 minutes still yields the single slot at its start), and with
no shifts the steps from local midnight with `t ≤ dayStart + 24h − 90`. -/
theorem c4_slot_generation_amended :
    ∀ (dayStart : Int) (sh : Shift) (rest : List Shift) (t : Int),
      (t ∈ generate15MinSlots dayStart (some (sh :: rest)) ↔
        ∃ sh2 ∈ sh :: rest, ∃ k : Nat,
          t = dayStart + sh2.startMin + 15 * k ∧
          t ≤ max (dayStart + sh2.startMin) (dayStart + sh2.endMin - 90)) ∧
      (t ∈ generate15MinSlots dayStart none ↔
        ∃ k : Nat, t = dayStart + 15 * k ∧ t ≤ dayStart + (24 * 60 - 90)) := by
  intro dayStart sh rest t
  constructor
  · show t ∈ (sh :: rest).flatMap _ ↔ _
    rw [List.mem_flatMap]
    constructor
    · rintro ⟨sh2, hsh2, ht⟩
      simp only [if_gt_eq_max] at ht
      rw [mem_eachMinuteStep15] at ht
      exact ⟨sh2, hsh2, ht⟩
    · rintro ⟨sh2, hsh2, k, hk, hle⟩
      refine ⟨sh2, hsh2, ?_⟩
      simp only [if_gt_eq_max]
      rw [mem_eachMinuteStep15]
      exact ⟨k, hk, hle⟩
  · exact mem_eachMinuteStep15 _ _ _

end Woki

/-! # Table assignment (src/backend/src/services/table-assignment.service.ts) -/

namespace Woki

/-- `getTablesBySector(sectorId)` (table.repository.ts): all tables of the
sector, in row order. -/
def getTablesBySector (tables : List Table) (sectorId : String) : List Table :=
  tables.filter fun t => t.sectorId == sectorId

/-- `getEligibleTables(sectorId, partySize)` (table.repository.ts): the
sector tables with `minSize ≤ partySize ≤ maxSize`, in row order. -/
def getEligibleTables (tables : List Table) (sectorId : String) (partySize : Nat) :
    List Table :=
  tables.filter fun t =>
    t.sectorId == sectorId && decide (t.minSize ≤ partySize) &&
      decide (partySize ≤ t.maxSize)

/-- The per-result overlap re-check used by assignTable:
`overlapping.some(r => r.start < end && r.end > start)`. -/
def hasOverlapIn (rs : List Reservation) (s e : Nat) : Bool :=
  rs.any fun r => decide (r.startTime < e) && decide (r.endTime > s)

/-- The k-subset enumerator `generateCombinations(arr, k)` of
findTableCombination: subsets of size k, as id lists, in lexicographic order
of positions.  (k = 0 never occurs in the source: the caller starts at 2 and
the recursion bottoms out at 1.) -/
def generateCombinations : List Table → Nat → List (List Nat)
  | _, 0 => []
  | arr, 1 => arr.map fun t => [t.id]
  | [], _ + 2 => []
  | t :: rest, k + 2 =>
    ((generateCombinations rest (k + 1)).map fun c => t.id :: c) ++
      generateCombinations rest (k + 2)

/-- The loop body of `findTableCombination(candidates, partySize, numTables,
...)` for one enumerated subset: `continue` (none) unless the summed
capacity bounds admit the party (`sum(minSize) ≤ partySize ≤ sum(maxSize)`,
summed via per-id lookup with `(table?.minSize || 0)` on a miss) and no
reservation overlaps the subset; on success its ids sorted ascending. -/
def comboCheck (store : List Reservation) (candidateTables : List Table)
    (partySize startTime endTime : Nat) (excludeReservationId : Option Nat)
    (tableIds : List Nat) : Option (List Nat) :=
  let totalMinCapacity := (tableIds.map fun tid =>
    ((candidateTables.find? fun t => t.id == tid).map Table.minSize).getD 0).sum
  let totalMaxCapacity := (tableIds.map fun tid =>
    ((candidateTables.find? fun t => t.id == tid).map Table.maxSize).getD 0).sum
  if totalMinCapacity > partySize || totalMaxCapacity < partySize then none
  else if hasOverlapIn
      (getOverlappingReservations store tableIds startTime endTime excludeReservationId)
      startTime endTime then none
  else some (List.insertionSort (fun a b => a ≤ b) tableIds)

def findTableCombination (store : List Reservation) (candidateTables : List Table)
    (partySize numTables startTime endTime : Nat)
    (excludeReservationId : Option Nat) : Option (List Nat) :=
  (generateCombinations candidateTables numTables).findSome?
    (comboCheck store candidateTables partySize startTime endTime excludeReservationId)

/-- Step 2 of `assignTable`: candidates are all sector tables with
`minSize ≤ partySize`, stably sorted descending by `maxSize`
(JS `sort((a,b) => b.maxSize - a.maxSize)`); subset sizes 2, 3, … up to
`maxTables` (and at most the candidate count) are tried in order. -/
def assignTableCombos (tables : List Table) (store : List Reservation) (sectorId : String)
    (startTime partySize endTime : Nat) (excludeReservationId : Option Nat)
    (maxTables : Nat) : Option (List Nat) :=
  let allTables := getTablesBySector tables sectorId
  if allTables.isEmpty then none
  else
    let candidateTables := allTables.filter fun t => decide (t.minSize ≤ partySize)
    if candidateTables.isEmpty then none
    else
      let sortedCandidates :=
        List.insertionSort (fun a b => b.maxSize ≤ a.maxSize) candidateTables
      ((List.range' 2 (maxTables - 1)).filter fun k => k ≤ sortedCandidates.length).findSome?
        fun numTables =>
          findTableCombination store sortedCandidates partySize numTables startTime endTime
            excludeReservationId

/-- `assignTable(sectorId, start, partySize, duration, exclude?, maxTables = 5)`.
Step 1 sorts the eligible tables stably by `(a.maxSize - partySize) -
(b.maxSize - partySize)` — i.e. ascending by `maxSize` — and returns the
first with no overlapping reservation; otherwise combinations are tried. -/
def assignTable (tables : List Table) (store : List Reservation) (sectorId : String)
    (startTime partySize reservationDurationMinutes : Nat)
    (excludeReservationId : Option Nat) (maxTables : Nat) : Option (List Nat) :=
  match (List.insertionSort (fun a b => a.maxSize ≤ b.maxSize)
      (getEligibleTables tables sectorId partySize)).find? (fun t =>
        !hasOverlapIn
          (getOverlappingReservations store [t.id] startTime
            (startTime + reservationDurationMinutes) excludeReservationId)
          startTime (startTime + reservationDurationMinutes)) with
  | some t => some [t.id]
  | none =>
    assignTableCombos tables store sectorId startTime partySize
      (startTime + reservationDurationMinutes) excludeReservationId maxTables

theorem mem_getEligibleTables (tables : List Table) (sectorId : String) (p : Nat)
    (t : Table) :
    t ∈ getEligibleTables tables sectorId p ↔
      t ∈ tables ∧ t.sectorId = sectorId ∧ t.minSize ≤ p ∧ p ≤ t.maxSize := by
  simp [getEligibleTables, List.mem_filter, and_assoc]

theorem mem_getTablesBySector (tables : List Table) (sectorId : String) (t : Table) :
    t ∈ getTablesBySector tables sectorId ↔ t ∈ tables ∧ t.sectorId = sectorId := by
  simp [getTablesBySector, List.mem_filter]

theorem generateCombinations_sound (arr : List Table) (k : Nat) (c : List Nat)
    (hc : c ∈ generateCombinations arr k) :
    ∃ sub : List Table, sub.Sublist arr ∧ c = sub.map Table.id ∧ sub.length = k := by
  induction arr generalizing k c with
  | nil =>
    match k with
    | 0 => simp [generateCombinations] at hc
    | 1 => simp [generateCombinations] at hc
    | _ + 2 => simp [generateCombinations] at hc
  | cons t rest ih =>
    match k with
    | 0 => simp [generateCombinations] at hc
    | 1 =>
      simp only [generateCombinations, List.mem_map] at hc
      obtain ⟨x, hx, rfl⟩ := hc
      exact ⟨[x], List.singleton_sublist.mpr hx, rfl, rfl⟩
    | k + 2 =>
      simp only [generateCombinations, List.mem_append, List.mem_map] at hc
      rcases hc with ⟨c2, hc2, rfl⟩ | hc2
      · obtain ⟨sub2, hsub2, rfl, hlen⟩ := ih (k + 1) c2 hc2
        exact ⟨t :: sub2, List.Sublist.cons₂ t hsub2, rfl, by simp [hlen]⟩
      · obtain ⟨sub, hsub, rfl, hlen⟩ := ih (k + 2) c hc2
        exact ⟨sub, hsub.cons t, rfl, hlen⟩

theorem map_lookup_eq (cands sub : List Table) (f : Table → Nat)
    (hnd : (cands.map Table.id).Nodup) (hsub : ∀ x ∈ sub, x ∈ cands) :
    (sub.map Table.id).map
      (fun tid => ((cands.find? fun t => t.id == tid).map f).getD 0) = sub.map f := by
  rw [List.map_map]
  apply List.map_congr_left
  intro x hx
  have := find?_id_unique (f := Table.id) hnd (hsub x hx)
  simp only [Function.comp_apply, this]
  rfl

end Woki

namespace Woki

theorem comboCheck_eq_some (store : List Reservation) (cands : List Table)
    (partySize s e : Nat) (excl : Option Nat) (c : List Nat) (l : List Nat)
    (h : comboCheck store cands partySize s e excl c = some l) :
    (c.map fun tid => ((cands.find? fun t => t.id == tid).map Table.minSize).getD 0).sum
        ≤ partySize ∧
    partySize ≤
      (c.map fun tid => ((cands.find? fun t => t.id == tid).map Table.maxSize).getD 0).sum ∧
    l = List.insertionSort (fun a b => a ≤ b) c := by
  unfold comboCheck at h
  by_cases h1 : ((c.map fun tid =>
      ((cands.find? fun t => t.id == tid).map Table.minSize).getD 0).sum > partySize ||
      (c.map fun tid =>
      ((cands.find? fun t => t.id == tid).map Table.maxSize).getD 0).sum < partySize : Bool)
  · rw [if_pos h1] at h
    exact absurd h (by simp)
  · rw [if_neg h1] at h
    simp only [Bool.or_eq_true, decide_eq_true_eq, not_or] at h1
    by_cases h2 : hasOverlapIn (getOverlappingReservations store c s e excl) s e
    · rw [if_pos h2] at h
      exact absurd h (by simp)
    · rw [if_neg h2] at h
      have hl := Option.some.inj h
      exact ⟨by omega, by omega, hl.symm⟩

end Woki

/-! # Claim C6 — single-table Best-Fit -/

namespace Woki

/-- Modelled from the spec: Step 1 of section 4.6 as the spec words it —
eligible tables sorted ascending by `maxSize − partySize` with ties broken
by table-id order; the first table with no overlapping reservation is
returned.  Used only to compare the claimed tie-break against the source's
stable sort (which keeps repository row order on ties). -/
def bestFitSpecOrder (tables : List Table) (store : List Reservation) (sectorId : String)
    (startTime partySize dur : Nat) (excl : Option Nat) : Option (List Nat) :=
  match (List.insertionSort
      (fun a b => a.maxSize < b.maxSize ∨ (a.maxSize = b.maxSize ∧ a.id ≤ b.id))
      (getEligibleTables tables sectorId partySize)).find? (fun t =>
        !hasOverlapIn
          (getOverlappingReservations store [t.id] startTime (startTime + dur) excl)
          startTime (startTime + dur)) with
  | some t => some [t.id]
  | none => none

/-- C6 counterexample: two equally wasteful free (2-4) tables for party 3,
the one with the larger id stored first.  The source's stable sort keeps
repository row order on ties, so table 2 wins, while the claimed table-id
tie-break would pick table 1. -/
theorem c6_best_fit_counterexample :
    assignTable [⟨2, "S", 2, 4⟩, ⟨1, "S", 2, 4⟩] [] "S" 1000 3 90 none 5 = some [2] ∧
    bestFitSpecOrder [⟨2, "S", 2, 4⟩, ⟨1, "S", 2, 4⟩] [] "S" 1000 3 90 none = some [1] ∧
    ([2] : List Nat) ≠ [1] := by
  refine ⟨by decide, by decide, by decide⟩

/-- C6 amended: eligible tables are considered in ascending `maxSize −
partySize` order with ties broken by repository row order (the stable sort
preserves it), not by table id.  Whenever some eligible table of the sector
is free over `[start, start + duration)`, assignTable returns a single free
eligible table whose `maxSize` (hence waste) is minimal among the free
eligible tables.  Second conjunct: the B3 instance — for party 3 and tables
(2-4), (4-6), the (2-4) table is chosen (the (4-6) table is not eligible). -/
theorem c6_best_fit_amended :
    (∀ (tables : List Table) (store : List Reservation) (sectorId : String)
        (startTime partySize dur : Nat) (excl : Option Nat) (maxTables : Nat),
      (∃ t ∈ tables, t.sectorId = sectorId ∧ t.minSize ≤ partySize ∧
        partySize ≤ t.maxSize ∧
        hasOverlapIn
          (getOverlappingReservations store [t.id] startTime (startTime + dur) excl)
          startTime (startTime + dur) = false) →
      ∃ t ∈ tables, t.sectorId = sectorId ∧ t.minSize ≤ partySize ∧
        partySize ≤ t.maxSize ∧
        hasOverlapIn
          (getOverlappingReservations store [t.id] startTime (startTime + dur) excl)
          startTime (startTime + dur) = false ∧
        assignTable tables store sectorId startTime partySize dur excl maxTables
          = some [t.id] ∧
        (∀ t2 ∈ tables, t2.sectorId = sectorId → t2.minSize ≤ partySize →
          partySize ≤ t2.maxSize →
          hasOverlapIn
            (getOverlappingReservations store [t2.id] startTime (startTime + dur) excl)
            startTime (startTime + dur) = false →
          t.maxSize ≤ t2.maxSize)) ∧
    assignTable [⟨1, "S", 2, 4⟩, ⟨2, "S", 4, 6⟩] [] "S" 1000 3 90 none 5 = some [1] := by
  constructor
  · intro tables store sectorId startTime partySize dur excl maxTables hex
    set p := (fun t : Table =>
      !hasOverlapIn
        (getOverlappingReservations store [t.id] startTime (startTime + dur) excl)
        startTime (startTime + dur)) with hp
    set sorted := List.insertionSort (fun a b => a.maxSize ≤ b.maxSize)
      (getEligibleTables tables sectorId partySize) with hsorted
    have hperm : sorted.Perm (getEligibleTables tables sectorId partySize) :=
      List.perm_insertionSort _ _
    have hsort : List.Pairwise (fun a b : Table => a.maxSize ≤ b.maxSize) sorted := by
      haveI : IsTotal Table (fun a b => a.maxSize ≤ b.maxSize) :=
        ⟨fun a b => Nat.le_total a.maxSize b.maxSize⟩
      haveI : IsTrans Table (fun a b => a.maxSize ≤ b.maxSize) :=
        ⟨fun a b c => Nat.le_trans⟩
      exact List.sorted_insertionSort _ _
    obtain ⟨t0, ht0, hsec0, hmin0, hmax0, hfree0⟩ := hex
    have ht0el : t0 ∈ getEligibleTables tables sectorId partySize :=
      (mem_getEligibleTables _ _ _ _).mpr ⟨ht0, hsec0, hmin0, hmax0⟩
    have hexs : ∃ x ∈ sorted, p x = true :=
      ⟨t0, hperm.mem_iff.mpr ht0el, by simp [hp, hfree0]⟩
    obtain ⟨t, hfind⟩ := Option.isSome_iff_exists.mp (List.find?_isSome.mpr hexs)
    have htmem : t ∈ getEligibleTables tables sectorId partySize :=
      hperm.mem_iff.mp (List.mem_of_find?_eq_some hfind)
    have htel := (mem_getEligibleTables _ _ _ _).mp htmem
    have htp : p t = true := List.find?_some hfind
    have htfree : hasOverlapIn
        (getOverlappingReservations store [t.id] startTime (startTime + dur) excl)
        startTime (startTime + dur) = false := by
      simpa [hp] using htp
    refine ⟨t, htel.1, htel.2.1, htel.2.2.1, htel.2.2.2, htfree, ?_, ?_⟩
    · simp only [assignTable, ← hsorted, ← hp, hfind]
    · intro t2 ht2 hsec2 hmin2 hmax2 hfree2
      exact find?_key_min (k := fun x : Table => x.maxSize) hsort hfind t2
        (hperm.mem_iff.mpr ((mem_getEligibleTables _ _ _ _).mpr
          ⟨ht2, hsec2, hmin2, hmax2⟩))
        (by simp [hp, hfree2])
  · decide

/-- C6 witness: the amended theorem applied to the concrete B3-style input —
table 1 (2-4) is eligible and free for party 3, and it is chosen. -/
theorem c6_best_fit_witness :
    (∃ t ∈ [Table.mk 1 "S" 2 4, Table.mk 2 "S" 4 6], t.sectorId = "S" ∧
      t.minSize ≤ 3 ∧ 3 ≤ t.maxSize ∧
      hasOverlapIn (getOverlappingReservations [] [t.id] 1000 (1000 + 90) none)
        1000 (1000 + 90) = false) ∧
    ∃ t ∈ [Table.mk 1 "S" 2 4, Table.mk 2 "S" 4 6], t.sectorId = "S" ∧
      t.minSize ≤ 3 ∧ 3 ≤ t.maxSize ∧
      hasOverlapIn (getOverlappingReservations [] [t.id] 1000 (1000 + 90) none)
        1000 (1000 + 90) = false ∧
      assignTable [Table.mk 1 "S" 2 4, Table.mk 2 "S" 4 6] [] "S" 1000 3 90 none 5
        = some [t.id] ∧
      (∀ t2 ∈ [Table.mk 1 "S" 2 4, Table.mk 2 "S" 4 6], t2.sectorId = "S" →
        t2.minSize ≤ 3 → 3 ≤ t2.maxSize →
        hasOverlapIn (getOverlappingReservations [] [t2.id] 1000 (1000 + 90) none)
          1000 (1000 + 90) = false →
        t.maxSize ≤ t2.maxSize) :=
  ⟨by decide,
   c6_best_fit_amended.1 [Table.mk 1 "S" 2 4, Table.mk 2 "S" 4 6] [] "S" 1000 3 90 none 5
     (by decide)⟩

end Woki

/-! # Claim C10 — output invariant of assignTable -/

namespace Woki

/-- C10: whenever `assignTable` (with combination bound 5) returns a result
over a sector whose table ids are pairwise distinct, the returned id list is
non-empty, duplicate-free, sorted ascending, and entirely drawn from the
queried sector; and it is either a single eligible table
(`minSize ≤ p ≤ maxSize`) or a combination of 2 to 5 tables, each with
`minSize ≤ p`, whose summed capacities satisfy
`sum(minSize) ≤ p ≤ sum(maxSize)`. -/
theorem c10_assign_output_invariant :
    ∀ (tables : List Table) (store : List Reservation) (sectorId : String)
      (startTime partySize dur : Nat) (excl : Option Nat) (l : List Nat),
      (tables.map Table.id).Nodup →
      assignTable tables store sectorId startTime partySize dur excl 5 = some l →
      l ≠ [] ∧ l.Nodup ∧ l.Sorted (fun a b => a ≤ b) ∧
        (∀ tid ∈ l, ∃ t ∈ tables, t.id = tid ∧ t.sectorId = sectorId) ∧
        ((∃ t ∈ tables, t.sectorId = sectorId ∧ t.minSize ≤ partySize ∧
            partySize ≤ t.maxSize ∧ l = [t.id]) ∨
          (∃ ts : List Table, l.Perm (ts.map Table.id) ∧
            2 ≤ ts.length ∧ ts.length ≤ 5 ∧
            (∀ t ∈ ts, t ∈ tables ∧ t.sectorId = sectorId ∧ t.minSize ≤ partySize) ∧
            (ts.map Table.minSize).sum ≤ partySize ∧
            partySize ≤ (ts.map Table.maxSize).sum)) := by
  intro tables store sectorId startTime partySize dur excl l hnd hassign
  unfold assignTable at hassign
  cases hfind : (List.insertionSort (fun a b => a.maxSize ≤ b.maxSize)
      (getEligibleTables tables sectorId partySize)).find? (fun t =>
        !hasOverlapIn
          (getOverlappingReservations store [t.id] startTime (startTime + dur) excl)
          startTime (startTime + dur)) with
  | some t =>
    rw [hfind] at hassign
    have hl : l = [t.id] := (Option.some.inj hassign).symm
    have htmem : t ∈ getEligibleTables tables sectorId partySize :=
      (List.perm_insertionSort _ _).mem_iff.mp (List.mem_of_find?_eq_some hfind)
    have htel := (mem_getEligibleTables _ _ _ _).mp htmem
    subst hl
    refine ⟨by simp, by simp, List.sorted_singleton _, ?_, Or.inl ⟨t, htel.1, htel.2.1,
      htel.2.2.1, htel.2.2.2, rfl⟩⟩
    intro tid htid
    have : tid = t.id := by simpa using htid
    exact ⟨t, htel.1, this.symm, htel.2.1⟩
  | none =>
    rw [hfind] at hassign
    simp only [assignTableCombos] at hassign
    by_cases hA : (getTablesBySector tables sectorId).isEmpty
    · rw [if_pos hA] at hassign
      exact absurd hassign (by simp)
    · rw [if_neg hA] at hassign
      by_cases hC : ((getTablesBySector tables sectorId).filter
          (fun t => decide (t.minSize ≤ partySize))).isEmpty
      · rw [if_pos hC] at hassign
        exact absurd hassign (by simp)
      · rw [if_neg hC] at hassign
        set cand := (getTablesBySector tables sectorId).filter
          (fun t => decide (t.minSize ≤ partySize)) with hcand
        set sortedCands := List.insertionSort (fun a b => b.maxSize ≤ a.maxSize) cand
          with hsc
        obtain ⟨l1, k, l2, hsplit, hk, -⟩ := List.findSome?_eq_some_iff.mp hassign
        have hkmem : k ∈ (List.range' 2 (5 - 1)).filter
            (fun j => decide (j ≤ sortedCands.length)) := by
          rw [hsplit]
          exact List.mem_append.mpr (Or.inr (List.mem_cons_self _ _))
        have hkrange : k ∈ List.range' 2 (5 - 1) := (List.mem_filter.mp hkmem).1
        have hkb := List.mem_range'_1.mp hkrange
        unfold findTableCombination at hk
        obtain ⟨m1, c, m2, hsplit2, hck, -⟩ := List.findSome?_eq_some_iff.mp hk
        have hcmem : c ∈ generateCombinations sortedCands k := by
          rw [hsplit2]
          exact List.mem_append.mpr (Or.inr (List.mem_cons_self _ _))
        obtain ⟨hmin, hmax, hlsort⟩ := comboCheck_eq_some _ _ _ _ _ _ _ _ hck
        obtain ⟨sub, hsubl, hcid, hsumlen⟩ := generateCombinations_sound _ _ _ hcmem
        -- id-Nodup chain down to the combination
        have hndA : ((getTablesBySector tables sectorId).map Table.id).Nodup :=
          ((List.filter_sublist tables).map Table.id).nodup hnd
        have hndC : (cand.map Table.id).Nodup := by
          rw [hcand]
          exact ((List.filter_sublist _).map Table.id).nodup hndA
        have hndS : (sortedCands.map Table.id).Nodup :=
          (((List.perm_insertionSort (fun a b => b.maxSize ≤ a.maxSize) cand).map
            Table.id).symm).nodup hndC
        have hndc : c.Nodup := by
          rw [hcid]
          exact ((hsubl.map Table.id).nodup) hndS
        have hlperm : l.Perm c := by
          rw [hlsort]
          exact List.perm_insertionSort _ _
        have hmemsub : ∀ x ∈ sub, x ∈ sortedCands := fun x hx => hsubl.subset hx
        have hmemtables : ∀ x ∈ sub, x ∈ tables ∧ x.sectorId = sectorId ∧
            x.minSize ≤ partySize := by
          intro x hx
          have hx2 : x ∈ cand :=
            (List.perm_insertionSort (fun a b => b.maxSize ≤ a.maxSize) cand).subset
              (hmemsub x hx)
          rw [hcand] at hx2
          have hx3 := List.mem_filter.mp hx2
          have hx4 := (mem_getTablesBySector _ _ _).mp hx3.1
          exact ⟨hx4.1, hx4.2, by simpa using hx3.2⟩
        have hsummin : (c.map fun tid =>
            ((sortedCands.find? fun t => t.id == tid).map Table.minSize).getD 0).sum
            = (sub.map Table.minSize).sum := by
          rw [hcid, map_lookup_eq sortedCands sub Table.minSize hndS hmemsub]
        have hsummax : (c.map fun tid =>
            ((sortedCands.find? fun t => t.id == tid).map Table.maxSize).getD 0).sum
            = (sub.map Table.maxSize).sum := by
          rw [hcid, map_lookup_eq sortedCands sub Table.maxSize hndS hmemsub]
        have hlen : l.length = k := by
          rw [hlperm.length_eq, hcid, List.length_map, hsumlen]
        refine ⟨?_, hlperm.symm.nodup hndc, ?_, ?_,
          Or.inr ⟨sub, ?_, ?_, ?_, hmemtables, ?_, ?_⟩⟩
        · intro h0
          rw [h0] at hlen
          simp at hlen
          omega
        · rw [hlsort]
          haveI : IsTotal Nat (fun a b : Nat => a ≤ b) := ⟨fun a b => Nat.le_total a b⟩
          haveI : IsTrans Nat (fun a b : Nat => a ≤ b) := ⟨fun a b cc => Nat.le_trans⟩
          exact List.sorted_insertionSort _ _
        · intro tid htid
          have htid2 : tid ∈ c := hlperm.subset htid
          rw [hcid] at htid2
          obtain ⟨x, hx, rfl⟩ := List.mem_map.mp htid2
          have hx2 := hmemtables x hx
          exact ⟨x, hx2.1, rfl, hx2.2.1⟩
        · rw [← hcid]
          exact hlperm
        · omega
        · omega
        · rw [← hsummin]
          exact hmin
        · rw [← hsummax]
          exact hmax

/-- C10 witness: two (2-4) tables, party of 8 — no single table is eligible
and the pair is returned as the combination [1, 2]; the invariant holds
there. -/
theorem c10_assign_witness :
    (([Table.mk 1 "S" 2 4, Table.mk 2 "S" 2 4].map Table.id).Nodup ∧
      assignTable [Table.mk 1 "S" 2 4, Table.mk 2 "S" 2 4] [] "S" 0 8 90 none 5
        = some [1, 2]) ∧
    (([1, 2] : List Nat) ≠ [] ∧ ([1, 2] : List Nat).Nodup ∧
      ([1, 2] : List Nat).Sorted (fun a b => a ≤ b) ∧
      (∀ tid ∈ ([1, 2] : List Nat), ∃ t ∈ [Table.mk 1 "S" 2 4, Table.mk 2 "S" 2 4],
        t.id = tid ∧ t.sectorId = "S") ∧
      ((∃ t ∈ [Table.mk 1 "S" 2 4, Table.mk 2 "S" 2 4], t.sectorId = "S" ∧
          t.minSize ≤ 8 ∧ 8 ≤ t.maxSize ∧ ([1, 2] : List Nat) = [t.id]) ∨
        (∃ ts : List Table, ([1, 2] : List Nat).Perm (ts.map Table.id) ∧
          2 ≤ ts.length ∧ ts.length ≤ 5 ∧
          (∀ t ∈ ts, t ∈ [Table.mk 1 "S" 2 4, Table.mk 2 "S" 2 4] ∧
            t.sectorId = "S" ∧ t.minSize ≤ 8) ∧
          (ts.map Table.minSize).sum ≤ 8 ∧ 8 ≤ (ts.map Table.maxSize).sum))) :=
  ⟨⟨by decide, by decide⟩,
   c10_assign_output_invariant [Table.mk 1 "S" 2 4, Table.mk 2 "S" 2 4] [] "S" 0 8 90
     none [1, 2] (by decide) (by decide)⟩

end Woki

/-! # Pending-holds service (src/backend/src/services/pending-holds.service.ts)
and the repository cancel/update operations (src/unnamed/part_009) -/

namespace Woki

/-- `getReservationById(id)`: first row with the id. -/
def getReservationById (rs : List Reservation) (id : Nat) : Option Reservation :=
  rs.find? fun r => r.id == id

/-- `updateReservation(id, patch)` (src/unnamed/part_009): set the patched
columns on every row with the id.  Each call site's patch is modelled as the
explicit record update it performs. -/
def updateById (rs : List Reservation) (id : Nat) (patch : Reservation → Reservation) :
    List Reservation :=
  rs.map fun r => if r.id == id then patch r else r

/-- The expiry condition of `expirePendingHolds`: PENDING with `expiresAt`
set and strictly before now. -/
def isExpiredPending (now : Nat) (r : Reservation) : Bool :=
  r.status == RStatus.pending &&
    (match r.expiresAt with
     | some e => decide (e < now)
     | none => false)

/-- `expirePendingHolds()`: each expired pending hold is updated with
`{status: CANCELLED, updatedAt: now}` — `expiresAt` is not in the patch;
returns the new store and the expired count. -/
def expirePendingHolds (now : Nat) (rs : List Reservation) : List Reservation × Nat :=
  (rs.map fun r =>
      if isExpiredPending now r then
        { r with status := RStatus.cancelled, updatedAt := now }
      else r,
    (rs.filter (isExpiredPending now)).length)

/-- `approvePendingReservation(id)`: must exist, be PENDING, and (when
`expiresAt` is set) not yet expired; then
`{status: CONFIRMED, expiresAt: null, updatedAt: now}`. -/
def approvePendingReservation (rs : List Reservation) (id now : Nat) :
    Except SvcErr (List Reservation) :=
  match getReservationById rs id with
  | none => .error .notFound
  | some r =>
    if r.status ≠ RStatus.pending then .error .invalidFormat
    else
      match r.expiresAt with
      | some e =>
        if e < now then .error .invalidFormat
        else .ok (updateById rs id fun x =>
          { x with status := RStatus.confirmed, expiresAt := none, updatedAt := now })
      | none => .ok (updateById rs id fun x =>
          { x with status := RStatus.confirmed, expiresAt := none, updatedAt := now })

/-- `rejectPendingReservation(id)`: must exist and be PENDING; then
`{status: CANCELLED, expiresAt: null, updatedAt: now}`. -/
def rejectPendingReservation (rs : List Reservation) (id now : Nat) :
    Except SvcErr (List Reservation) :=
  match getReservationById rs id with
  | none => .error .notFound
  | some r =>
    if r.status ≠ RStatus.pending then .error .invalidFormat
    else .ok (updateById rs id fun x =>
      { x with status := RStatus.cancelled, expiresAt := none, updatedAt := now })

/-- Repository `cancelReservation(id, updatedAt)`: sets only
`{status: CANCELLED, updatedAt}` on the row. -/
def cancelReservation (rs : List Reservation) (id now : Nat) : List Reservation :=
  updateById rs id fun r => { r with status := RStatus.cancelled, updatedAt := now }

/-- `cancelReservationService(id)` (reservation.service.ts): NotFound when
missing; a no-op on an already cancelled reservation; otherwise the
repository cancel. -/
def cancelReservationService (rs : List Reservation) (id now : Nat) :
    Except SvcErr (List Reservation) :=
  match getReservationById rs id with
  | none => .error .notFound
  | some r =>
    if r.status = RStatus.cancelled then .ok rs
    else .ok (cancelReservation rs id now)

end Woki

/-! # Reservation service (src/backend/src/services/reservation.service.ts) -/

namespace Woki

/-- `isWithinShift(dateTime, timezone, shifts?)` (datetime.ts): true with no
(or empty) shifts; otherwise the instant's local minute-of-day must lie in
some `[start, end)` window (the source's lexicographic "HH:MM" comparison
equals minute-of-day comparison). -/
def isWithinShift (t : Nat) (tzOffset : Nat) (shifts : Option (List Shift)) : Bool :=
  match shifts with
  | none => true
  | some [] => true
  | some ss =>
    ss.any fun sh =>
      decide (sh.startMin ≤ (t + tzOffset) % 1440) &&
        decide ((t + tzOffset) % 1440 < sh.endMin)

/-- `validateAdvanceBooking(startISO, minAdvanceMinutes?, maxAdvanceDays?)`
(utils/booking-policy.ts, carried in the same snapshot as metrics.ts): the
minimum-advance and maximum-advance bounds when configured, then the
past-start rejection unless NODE_ENV is test. -/
def validateAdvanceBooking (start now : Nat)
    (minAdvanceMinutes maxAdvanceDays : Option Nat) (testMode : Bool) : Bool :=
  (match minAdvanceMinutes with
   | some m => decide ((m : Int) ≤ (start : Int) - (now : Int))
   | none => true) &&
  (match maxAdvanceDays with
   | some d => decide ((start : Int) - (now : Int) ≤ (d : Int) * 24 * 60)
   | none => true) &&
  (testMode || decide (now ≤ start))

/-- `getRestaurantById` (restaurant.repository.ts). -/
def getRestaurantById (db : Db) (id : String) : Option Restaurant :=
  db.restaurants.find? fun r => r.id == id

/-- `getSectorById` (sector.repository.ts; only its callers survive in the
sources — a primary-key lookup). -/
def getSectorById (db : Db) (id : String) : Option Sector :=
  db.sectors.find? fun s => s.id == id

/-- Modelled from the spec: `overlappingRestaurant(restaurantId, [start,
end), excludeReservationId?)` — `getOverlappingReservationsForRestaurant` is
imported by reservation.service.ts but its definition is missing from the
provided sources; per spec section 4.5 it is analogous to `overlapping`,
scoped to the restaurant: active reservations of the restaurant whose
interval strictly overlaps the window, minus the excluded id. -/
def getOverlappingReservationsForRestaurant (store : List Reservation)
    (restaurantId : String) (s e : Nat) (excl : Option Nat) : List Reservation :=
  store.filter fun r =>
    statusActive r && r.restaurantId == restaurantId &&
      (match excl with
       | some ex => r.id != ex
       | none => true) &&
      decide (r.startTime < e) && decide (r.endTime > s)

/-- A create request (restaurant, sector, party, start; the customer and
notes fields are carried opaquely and omitted). -/
structure CreateReq where
  restaurantId : String
  sectorId : String
  partySize : Nat
  startTime : Nat
deriving DecidableEq, Repr

/-- `createReservationService(data)`, steps 1–12 in source order.  `newId`
stands for the generated `RES_{nanoid}` identifier and `now` for the call's
clock.  Steps 5–6 (restaurant- and sector-slot locks) serialize competing
writers and are modelled by the function running atomically over the store;
a busy lock fails the call before any store effect (claim C2).  Note the
source order kept here: the table assignment (step 9) reads the store as is,
and the expired-holds sweep (step 11) runs after it, just before the insert
(step 12).  A configured pending-hold TTL is positive. -/
def createReservationService (db : Db) (req : CreateReq) (now : Nat) (newId : Nat)
    (testMode : Bool) : Except SvcErr (Reservation × Db) :=
  match getRestaurantById db req.restaurantId with
  | none => .error .notFound
  | some restaurant =>
    match getSectorById db req.sectorId with
    | none => .error .notFound
    | some _ =>
      if !isWithinShift req.startTime restaurant.tzOffset restaurant.shifts then
        .error .outsideServiceWindow
      else if !validateAdvanceBooking req.startTime now restaurant.minAdvanceMinutes
          restaurant.maxAdvanceDays testMode then
        .error .invalidFormat
      else
        let reservationDurationMinutes := calculateReservationDuration req.partySize
          restaurant.durationRules (restaurant.reservationDurationMinutes.getD 90)
        let endTime := req.startTime + reservationDurationMinutes
        let guestCapExceeded :=
          match restaurant.maxGuestsPerSlot with
          | some maxGuests =>
            decide (maxGuests <
              ((getOverlappingReservationsForRestaurant db.reservations req.restaurantId
                req.startTime endTime none).map Reservation.partySize).sum + req.partySize)
          | none => false
        if guestCapExceeded then .error .noCapacity
        else
          let isLargeGroup :=
            match restaurant.largeGroupThreshold with
            | some thr => decide (thr ≤ req.partySize)
            | none => false
          match assignTable db.tables db.reservations req.sectorId req.startTime
              req.partySize reservationDurationMinutes none 5 with
          | none => .error .noCapacity
          | some [] => .error .noCapacity
          | some tableIds =>
            let statusExpires :=
              match isLargeGroup, restaurant.pendingHoldTTLMinutes with
              | true, some ttl => (RStatus.pending, some (now + ttl))
              | _, _ => (RStatus.confirmed, (none : Option Nat))
            let swept := (expirePendingHolds now db.reservations).1
            let newRes : Reservation :=
              ⟨newId, req.restaurantId, req.sectorId, tableIds, req.partySize,
                req.startTime, endTime, statusExpires.1, statusExpires.2, now⟩
            .ok (newRes, { db with reservations := swept ++ [newRes] })

/-- An update (PATCH) request: each field optional, as in
updateReservationService. -/
structure UpdateReq where
  sectorId : Option String
  partySize : Option Nat
  startTime : Option Nat
deriving DecidableEq, Repr

/-- `updateReservationService(id, data)`: reject missing or cancelled
reservations; effective new sector/party/start fall back to the stored ones;
re-validate shift and advance policy when the time changes; recompute the
duration and end; enforce the guest cap excluding this reservation;
re-assign tables (excluding this reservation) when time, sector or party
changed; persist a patch that does not touch status or expiresAt. -/
def updateReservationService (db : Db) (id : Nat) (req : UpdateReq) (now : Nat)
    (testMode : Bool) : Except SvcErr Db :=
  match getReservationById db.reservations id with
  | none => .error .notFound
  | some existing =>
    if existing.status = RStatus.cancelled then .error .invalidFormat
    else
      match getRestaurantById db existing.restaurantId with
      | none => .error .notFound
      | some restaurant =>
        let newSectorId := req.sectorId.getD existing.sectorId
        let newPartySize := req.partySize.getD existing.partySize
        let newStartTime := req.startTime.getD existing.startTime
        let sectorMissing :=
          match req.sectorId with
          | some s => s ≠ existing.sectorId && (getSectorById db s).isNone
          | none => false
        if sectorMissing then .error .notFound
        else if req.startTime.isSome &&
            !isWithinShift newStartTime restaurant.tzOffset restaurant.shifts then
          .error .outsideServiceWindow
        else if req.startTime.isSome &&
            !validateAdvanceBooking newStartTime now restaurant.minAdvanceMinutes
              restaurant.maxAdvanceDays testMode then
          .error .invalidFormat
        else
          let reservationDurationMinutes := calculateReservationDuration newPartySize
            restaurant.durationRules (restaurant.reservationDurationMinutes.getD 90)
          let newEndTime := newStartTime + reservationDurationMinutes
          let guestCapExceeded :=
            match restaurant.maxGuestsPerSlot with
            | some maxGuests =>
              decide (maxGuests <
                ((getOverlappingReservationsForRestaurant db.reservations
                  existing.restaurantId newStartTime newEndTime (some id)).map
                  Reservation.partySize).sum + newPartySize)
            | none => false
          if guestCapExceeded then .error .noCapacity
          else
            let needsReassignment :=
              req.startTime.isSome || req.sectorId.isSome ||
                (match req.partySize with
                 | some ps => decide (ps ≠ existing.partySize)
                 | none => false)
            let applyPatch := fun (tids : List Nat) =>
              { db with reservations := updateById db.reservations id fun r =>
                  { r with sectorId := newSectorId, tableIds := tids,
                           partySize := newPartySize, startTime := newStartTime,
                           endTime := newEndTime, updatedAt := now } }
            if needsReassignment then
              match assignTable db.tables db.reservations newSectorId newStartTime
                  newPartySize reservationDurationMinutes (some id) 5 with
              | none => .error .noCapacity
              | some [] => .error .noCapacity
              | some newTableIds => .ok (applyPatch newTableIds)
            else .ok (applyPatch existing.tableIds)

end Woki

/-! # Claim C7 — invariant I4 (CANCELLED implies expiresAt cleared) -/

namespace Woki

/-- A concrete expired pending hold, used by the C7 theorems. -/
def c7Hold : Reservation :=
  ⟨1, "R1", "S1", [1], 8, 1000, 1090, RStatus.pending, some 100, 0⟩

/-- The row produced by rejecting `c7Hold` at now = 50 (C7 witness input). -/
def c7Rejected : Reservation :=
  ⟨1, "R1", "S1", [1], 8, 1000, 1090, RStatus.cancelled, none, 50⟩

/-- C7 counterexample: the TTL-expiry sweep at now = 200 cancels the expired
pending hold but leaves `expiresAt = some 100` in place, so the reachable
post-sweep state contains a CANCELLED reservation with non-null
`expiresAt`. -/
theorem c7_i4_counterexample :
    (expirePendingHolds 200 [c7Hold]).1 =
      [{ c7Hold with status := RStatus.cancelled, updatedAt := 200 }] ∧
    ({ c7Hold with status := RStatus.cancelled, updatedAt := 200 }).status
      = RStatus.cancelled ∧
    ({ c7Hold with status := RStatus.cancelled, updatedAt := 200 }).expiresAt
      = some 100 := by
  refine ⟨by decide, rfl, rfl⟩

/-- C7 amended: the reject path does clear `expiresAt` (every row carrying
the rejected id ends CANCELLED with `expiresAt = null`), but the TTL-expiry
sweep leaves every reservation's `expiresAt` unchanged while cancelling it —
so I4 holds after reject, and fails on the expiry (and plain-cancel) paths. -/
theorem c7_i4_amended :
    (∀ (rs : List Reservation) (id now : Nat) (rs2 : List Reservation),
      rejectPendingReservation rs id now = .ok rs2 →
      ∀ r ∈ rs2, r.id = id → r.status = RStatus.cancelled ∧ r.expiresAt = none) ∧
    (∀ (now : Nat) (rs : List Reservation),
      ((expirePendingHolds now rs).1).map Reservation.expiresAt
        = rs.map Reservation.expiresAt) := by
  constructor
  · intro rs id now rs2 hok r hr hid
    unfold rejectPendingReservation at hok
    split at hok
    · exact absurd hok (by simp)
    · split at hok
      · exact absurd hok (by simp)
      · have hrs2 : rs2 = updateById rs id (fun x =>
            { x with status := RStatus.cancelled, expiresAt := none,
                     updatedAt := now }) := by
          cases hok
          rfl
        subst hrs2
        obtain ⟨x, hx, hxr⟩ := List.mem_map.mp hr
        by_cases hxid : (x.id == id) = true
        · rw [if_pos hxid] at hxr
          cases hxr
          exact ⟨rfl, rfl⟩
        · rw [if_neg hxid] at hxr
          cases hxr
          exact absurd (by simpa using hid) hxid
  · intro now rs
    simp only [expirePendingHolds, List.map_map]
    apply List.map_congr_left
    intro x hx
    by_cases hxe : isExpiredPending now x
    · simp [hxe, Function.comp]
    · simp [hxe, Function.comp]

/-- C7 witness: the amended theorem applied to a reject of the concrete
pending hold at now = 50 — the resulting row is CANCELLED with `expiresAt`
cleared. -/
theorem c7_i4_witness :
    rejectPendingReservation [c7Hold] 1 50 = .ok [c7Rejected] ∧
    (∀ r ∈ [c7Rejected], r.id = 1 →
      r.status = RStatus.cancelled ∧ r.expiresAt = none) :=
  ⟨by decide, c7_i4_amended.1 [c7Hold] 1 50 [c7Rejected] (by decide)⟩

end Woki

/-! # Claim C3 — expired-holds sweep vs table assignment in create -/

namespace Woki

/-- C3 concrete store: one restaurant (no shifts, no policies), one sector,
one table, and a single stale expired PENDING hold occupying that table over
the requested interval. -/
def c3Db : Db :=
  ⟨[⟨"R1", 0, none, none, none, none, none, none, none, none⟩],
   [⟨"S1", "R1"⟩],
   [⟨1, "S1", 2, 4⟩],
   [⟨2, "R1", "S1", [1], 2, 1000, 1090, RStatus.pending, some 100, 0⟩]⟩

/-- C3 concrete request: party of 2 at instant 1000 in sector S1. -/
def c3Req : CreateReq := ⟨"R1", "S1", 2, 1000⟩

/-- C3 counterexample: at now = 200 the hold (expired at 100) is stale, yet
the create fails with NoCapacity because assignment runs before the sweep;
had the store been swept first — second conjunct — the same create would
succeed. -/
theorem c3_counterexample :
    createReservationService c3Db c3Req 200 3 false = .error SvcErr.noCapacity ∧
    (createReservationService
      { c3Db with reservations := (expirePendingHolds 200 c3Db.reservations).1 }
      c3Req 200 3 false).isOk = true := by
  refine ⟨by decide, by decide⟩

/-- C3 amended: in createReservationService the expired-holds sweep runs
after the table-assignment call (between assignment and insert), so the
assignment decision is taken on the unswept store: whenever the request
passes resolution, shift and advance validation (and no guest cap is
configured) but assignTable finds nothing on the store as is, the create
fails with NoCapacity — even when the only blockers are stale expired
holds that the sweep would have cancelled. -/
theorem c3_sweep_after_assignment_amended :
    ∀ (db : Db) (req : CreateReq) (now newId : Nat) (tm : Bool)
      (restaurant : Restaurant),
      getRestaurantById db req.restaurantId = some restaurant →
      (getSectorById db req.sectorId).isSome = true →
      isWithinShift req.startTime restaurant.tzOffset restaurant.shifts = true →
      validateAdvanceBooking req.startTime now restaurant.minAdvanceMinutes
        restaurant.maxAdvanceDays tm = true →
      restaurant.maxGuestsPerSlot = none →
      assignTable db.tables db.reservations req.sectorId req.startTime req.partySize
        (calculateReservationDuration req.partySize restaurant.durationRules
          (restaurant.reservationDurationMinutes.getD 90)) none 5 = none →
      createReservationService db req now newId tm = .error SvcErr.noCapacity := by
  intro db req now newId tm restaurant hrest hsec hshift hadv hmax hassign
  obtain ⟨sec, hsec2⟩ := Option.isSome_iff_exists.mp hsec
  simp only [createReservationService, hrest, hsec2, hshift, hadv, hmax, hassign,
    Bool.not_true, Bool.false_eq_true, if_false]

/-- C3 witness: the amended theorem applied at the concrete C3 store —
every validation passes, assignment fails on the unswept store, and the
create returns NoCapacity. -/
theorem c3_sweep_witness :
    createReservationService c3Db c3Req 200 3 false = .error SvcErr.noCapacity :=
  c3_sweep_after_assignment_amended c3Db c3Req 200 3 false
    ⟨"R1", 0, none, none, none, none, none, none, none, none⟩
    (by decide) (by decide) (by decide) (by decide) (by decide) (by decide)

end Woki

/-! # Claim C8 — idempotent create route
(src/backend/src/routes/reservations.routes.ts and
src/backend/src/repositories/idempotency.repository.ts) -/

namespace Woki

/-- `getIdempotencyResponse(key)`: the stored payload under the key, if
any.  Keys are opaque client strings; the stored response of the create
route is the reservation payload. -/
def getIdempotencyResponse (idem : List (String × Reservation)) (key : String) :
    Option Reservation :=
  (idem.find? fun p => p.1 == key).map (·.2)

/-- `storeIdempotencyResponse(key, response, createdAt)`: insert the record
(`createdAt` is not read back by the core and is omitted). -/
def storeIdempotencyResponse (idem : List (String × Reservation)) (key : String)
    (response : Reservation) : List (String × Reservation) :=
  (key, response) :: idem

/-- Application state seen by the route: the store plus the idempotency
table. -/
structure AppState where
  db : Db
  idem : List (String × Reservation)
deriving DecidableEq, Repr

/-- Outcome of the POST /reservations handler: 201 with a payload, or the
error mapped from the thrown AppError. -/
inductive RouteResult where
  | created (payload : Reservation)
  | failed (e : SvcErr)
deriving DecidableEq, Repr

/-- The POST /reservations handler: with an Idempotency-Key header, a cache
hit returns the cached payload (201) without calling the service; on a miss
the service runs, and only a successful (2xx) outcome is stored under the
key — an error propagates before the store call and caches nothing. -/
def postReservations (st : AppState) (key : Option String) (req : CreateReq)
    (now newId : Nat) (testMode : Bool) : RouteResult × AppState :=
  match key with
  | some k =>
    match getIdempotencyResponse st.idem k with
    | some cached => (.created cached, st)
    | none =>
      match createReservationService st.db req now newId testMode with
      | .ok (reservation, db2) =>
        (.created reservation, ⟨db2, storeIdempotencyResponse st.idem k reservation⟩)
      | .error e => (.failed e, st)
  | none =>
    match createReservationService st.db req now newId testMode with
    | .ok (reservation, db2) => (.created reservation, ⟨db2, st.idem⟩)
    | .error e => (.failed e, st)

/-- C8: (1) a first successful create under a fresh key k returns 201 with
the new payload and stores it under k; (2) any request carrying a key whose
payload is cached returns exactly the cached payload and leaves the whole
state — reservations included — unchanged, so replays create no second
reservation and the property persists for every subsequent attempt; (3) a
failing create returns the error and leaves the state unchanged — nothing
is stored under k. -/
theorem c8_idempotency :
    ∀ (st : AppState) (k : String) (req : CreateReq) (now newId : Nat) (tm : Bool),
      (∀ (res : Reservation) (db2 : Db),
        getIdempotencyResponse st.idem k = none →
        createReservationService st.db req now newId tm = .ok (res, db2) →
        postReservations st (some k) req now newId tm
          = (.created res, ⟨db2, (k, res) :: st.idem⟩) ∧
        getIdempotencyResponse ((k, res) :: st.idem) k = some res) ∧
      (∀ res : Reservation,
        getIdempotencyResponse st.idem k = some res →
        postReservations st (some k) req now newId tm = (.created res, st)) ∧
      (∀ e : SvcErr,
        getIdempotencyResponse st.idem k = none →
        createReservationService st.db req now newId tm = .error e →
        postReservations st (some k) req now newId tm = (.failed e, st)) := by
  intro st k req now newId tm
  refine ⟨?_, ?_, ?_⟩
  · intro res db2 hmiss hok
    constructor
    · simp only [postReservations, hmiss, hok, storeIdempotencyResponse]
    · simp [getIdempotencyResponse]
  · intro res hhit
    simp only [postReservations, hhit]
  · intro e hmiss herr
    simp only [postReservations, hmiss, herr]

/-- C8 concrete store: one restaurant with no policies, one sector, one free
table, no reservations. -/
def c8Db : Db :=
  ⟨[⟨"R1", 0, none, none, none, none, none, none, none, none⟩],
   [⟨"S1", "R1"⟩], [⟨1, "S1", 2, 4⟩], []⟩

/-- The payload of the first successful C8 create (id 7, table 1,
[1000, 1090), CONFIRMED). -/
def c8Payload : Reservation :=
  ⟨7, "R1", "S1", [1], 2, 1000, 1090, RStatus.confirmed, none, 200⟩

/-- The store after the first successful C8 create. -/
def c8DbAfter : Db :=
  ⟨[⟨"R1", 0, none, none, none, none, none, none, none, none⟩],
   [⟨"S1", "R1"⟩], [⟨1, "S1", 2, 4⟩], [c8Payload]⟩

/-- C8 witness: a concrete first create under key k1 succeeds and is cached;
replaying against the post-state returns the identical payload with the
state unchanged; and a create for a missing restaurant under a fresh key
caches nothing. -/
theorem c8_idempotency_witness :
    (postReservations ⟨c8Db, []⟩ (some "k1") ⟨"R1", "S1", 2, 1000⟩ 200 7 false
        = (.created c8Payload, ⟨c8DbAfter, [("k1", c8Payload)]⟩) ∧
      getIdempotencyResponse [("k1", c8Payload)] "k1" = some c8Payload) ∧
    postReservations ⟨c8DbAfter, [("k1", c8Payload)]⟩ (some "k1")
        ⟨"R1", "S1", 2, 1000⟩ 300 8 false
      = (.created c8Payload, ⟨c8DbAfter, [("k1", c8Payload)]⟩) ∧
    postReservations ⟨c8Db, []⟩ (some "k2") ⟨"R9", "S1", 2, 1000⟩ 200 7 false
      = (.failed SvcErr.notFound, ⟨c8Db, []⟩) :=
  ⟨(c8_idempotency ⟨c8Db, []⟩ "k1" ⟨"R1", "S1", 2, 1000⟩ 200 7 false).1
      c8Payload c8DbAfter (by decide) (by decide),
   (c8_idempotency ⟨c8DbAfter, [("k1", c8Payload)]⟩ "k1" ⟨"R1", "S1", 2, 1000⟩
      300 8 false).2.1 c8Payload (by decide),
   (c8_idempotency ⟨c8Db, []⟩ "k2" ⟨"R9", "S1", 2, 1000⟩ 200 7 false).2.2
      SvcErr.notFound (by decide) (by decide)⟩

end Woki

/-! # Claim C9 — expiry monotonicity across the reservation lifecycle -/

namespace Woki

theorem mem_id_unique {rs : List Reservation} {r r2 : Reservation}
    (hnd : (rs.map Reservation.id).Nodup) (hr : r ∈ rs) (hr2 : r2 ∈ rs)
    (hid : r2.id = r.id) : r2 = r := by
  have h1 := find?_id_unique (f := Reservation.id) hnd hr
  have h2 := find?_id_unique (f := Reservation.id) hnd hr2
  rw [hid, h1] at h2
  exact (Option.some.inj h2).symm

/-- Rows after an `updateReservation` patch that does not touch id, status
or expiresAt trace back to original rows with the same id, status and
expiresAt. -/
theorem updateById_preserves (rs : List Reservation) (id : Nat)
    (patch : Reservation → Reservation)
    (hid : ∀ x, (patch x).id = x.id)
    (hst : ∀ x, (patch x).status = x.status)
    (hex : ∀ x, (patch x).expiresAt = x.expiresAt) :
    ∀ r2 ∈ updateById rs id patch, ∃ x ∈ rs,
      r2.id = x.id ∧ r2.status = x.status ∧ r2.expiresAt = x.expiresAt := by
  intro r2 hr2
  obtain ⟨x, hx, hxr⟩ := List.mem_map.mp hr2
  by_cases hq : (x.id == id) = true
  · rw [if_pos hq] at hxr
    exact ⟨x, hx, by rw [← hxr, hid], by rw [← hxr, hst], by rw [← hxr, hex]⟩
  · rw [if_neg hq] at hxr
    exact ⟨x, hx, by rw [← hxr], by rw [← hxr], by rw [← hxr]⟩

/-- Rows after a patch that sets status to CANCELLED trace back to original
rows with the same id, ending CANCELLED or unchanged. -/
theorem updateById_cancel_cases (rs : List Reservation) (id : Nat)
    (patch : Reservation → Reservation)
    (hid : ∀ x, (patch x).id = x.id)
    (hst : ∀ x, (patch x).status = RStatus.cancelled) :
    ∀ r2 ∈ updateById rs id patch, ∃ x ∈ rs, r2.id = x.id ∧
      (r2.status = RStatus.cancelled ∨ r2.status = x.status) := by
  intro r2 hr2
  obtain ⟨x, hx, hxr⟩ := List.mem_map.mp hr2
  by_cases hq : (x.id == id) = true
  · rw [if_pos hq] at hxr
    exact ⟨x, hx, by rw [← hxr, hid], Or.inl (by rw [← hxr, hst])⟩
  · rw [if_neg hq] at hxr
    exact ⟨x, hx, by rw [← hxr], Or.inr (by rw [← hxr])⟩

/-- Inversion of a successful create: the returned reservation carries the
generated id and the stored rows are the swept originals plus the new row. -/
theorem create_ok_inv (db : Db) (req : CreateReq) (now newId : Nat) (tm : Bool)
    (res : Reservation) (db2 : Db)
    (h : createReservationService db req now newId tm = .ok (res, db2)) :
    res.id = newId ∧
    db2.reservations = (expirePendingHolds now db.reservations).1 ++ [res] := by
  unfold createReservationService at h
  dsimp only at h
  split at h
  · exact absurd h (by simp)
  · split at h
    · exact absurd h (by simp)
    · split at h
      · exact absurd h (by simp)
      · split at h
        · exact absurd h (by simp)
        · split at h
          · exact absurd h (by simp)
          · split at h
            · exact absurd h (by simp)
            · exact absurd h (by simp)
            · rw [Except.ok.injEq, Prod.mk.injEq] at h
              obtain ⟨hres, hdb⟩ := h
              subst hres
              subst hdb
              exact ⟨rfl, rfl⟩

/-- Inversion of a successful update: every stored row traces back to an
original row with the same id, status and expiresAt (the patch never writes
status or expiresAt). -/
theorem update_ok_inv (db : Db) (id : Nat) (req : UpdateReq) (now : Nat) (tm : Bool)
    (db2 : Db) (h : updateReservationService db id req now tm = .ok db2) :
    ∀ r2 ∈ db2.reservations, ∃ x ∈ db.reservations,
      r2.id = x.id ∧ r2.status = x.status ∧ r2.expiresAt = x.expiresAt := by
  unfold updateReservationService at h
  dsimp only at h
  split at h
  · exact absurd h (by simp)
  · split at h
    · exact absurd h (by simp)
    · split at h
      · exact absurd h (by simp)
      · split at h
        · exact absurd h (by simp)
        · split at h
          · exact absurd h (by simp)
          · split at h
            · exact absurd h (by simp)
            · split at h
              · exact absurd h (by simp)
              · split at h
                · split at h
                  · exact absurd h (by simp)
                  · exact absurd h (by simp)
                  · cases h
                    exact updateById_preserves _ _ _ (fun x => rfl) (fun x => rfl)
                      (fun x => rfl)
                · cases h
                  exact updateById_preserves _ _ _ (fun x => rfl) (fun x => rfl)
                    (fun x => rfl)

/-- Inversion of a successful approve: the looked-up reservation was PENDING
and not expired, and the store was patched to CONFIRMED with expiresAt
cleared. -/
theorem approve_ok_inv (rs : List Reservation) (id now : Nat) (rs2 : List Reservation)
    (h : approvePendingReservation rs id now = .ok rs2) :
    ∃ r0, getReservationById rs id = some r0 ∧ r0.status = RStatus.pending ∧
      (∀ e, r0.expiresAt = some e → ¬e < now) ∧
      rs2 = updateById rs id (fun x =>
        { x with status := RStatus.confirmed, expiresAt := none, updatedAt := now }) := by
  unfold approvePendingReservation at h
  split at h
  · exact absurd h (by simp)
  · rename_i r0 hfind
    split at h
    · exact absurd h (by simp)
    · rename_i hstatus
      split at h
      · rename_i e0 hexp
        split at h
        · exact absurd h (by simp)
        · rename_i hlt
          cases h
          refine ⟨r0, hfind, not_ne_iff.mp hstatus, ?_, rfl⟩
          intro e2 he2
          rw [hexp] at he2
          cases Option.some.inj he2
          exact hlt
      · rename_i hexp
        cases h
        refine ⟨r0, hfind, not_ne_iff.mp hstatus, ?_, rfl⟩
        intro e2 he2
        rw [hexp] at he2
        exact absurd he2 (by simp)

end Woki

namespace Woki

/-- The write operations of the reservation lifecycle, as exposed by the
routes: create, update (PATCH), cancel (DELETE), approve, reject, and the
expire sweep. -/
inductive Op where
  | create (req : CreateReq) (newId : Nat) (testMode : Bool)
  | update (id : Nat) (req : UpdateReq) (testMode : Bool)
  | cancel (id : Nat)
  | approve (id : Nat)
  | reject (id : Nat)
  | expire
deriving DecidableEq, Repr

/-- The store after one lifecycle operation executed at instant `now`
(a failed operation leaves the store unchanged, matching the services,
which throw before writing). -/
def applyOp (db : Db) (op : Op) (now : Nat) : Db :=
  match op with
  | .create req newId tm =>
    match createReservationService db req now newId tm with
    | .ok (_, db2) => db2
    | .error _ => db
  | .update id req tm =>
    match updateReservationService db id req now tm with
    | .ok db2 => db2
    | .error _ => db
  | .cancel id =>
    match cancelReservationService db.reservations id now with
    | .ok rs2 => { db with reservations := rs2 }
    | .error _ => db
  | .approve id =>
    match approvePendingReservation db.reservations id now with
    | .ok rs2 => { db with reservations := rs2 }
    | .error _ => db
  | .reject id =>
    match rejectPendingReservation db.reservations id now with
    | .ok rs2 => { db with reservations := rs2 }
    | .error _ => db
  | .expire => { db with reservations := (expirePendingHolds now db.reservations).1 }

/-- C9: a PENDING reservation already expired at the current instant never
transitions to CONFIRMED.  First conjunct: the approve operation rejects it
with InvalidFormat ("Pending hold has expired").  Second conjunct: after any
lifecycle operation executed at that instant (ids unique; a create's fresh
id not colliding), every stored row carrying the reservation's id is still
not CONFIRMED. -/
theorem c9_expiry_monotonicity :
    ∀ (db : Db) (now : Nat) (r : Reservation) (e : Nat),
      (db.reservations.map Reservation.id).Nodup →
      r ∈ db.reservations → r.status = RStatus.pending →
      r.expiresAt = some e → e < now →
      approvePendingReservation db.reservations r.id now
          = .error SvcErr.invalidFormat ∧
      ∀ op : Op,
        (∀ req newId tm, op = Op.create req newId tm →
          ∀ x ∈ db.reservations, x.id ≠ newId) →
        ∀ r2 ∈ (applyOp db op now).reservations, r2.id = r.id →
          r2.status ≠ RStatus.confirmed := by
  intro db now r e hnd hr hpend hexp hlt
  have hfindr : getReservationById db.reservations r.id = some r :=
    find?_id_unique (f := Reservation.id) hnd hr
  constructor
  · unfold approvePendingReservation
    rw [hfindr]
    dsimp only
    rw [if_neg (by simp [hpend])]
    rw [hexp]
    dsimp only
    rw [if_pos hlt]
  · intro op hfresh r2 hr2 hid2
    cases op with
    | create req newId tm =>
      cases hc : createReservationService db req now newId tm with
      | error err =>
        simp only [applyOp, hc] at hr2
        have heq := mem_id_unique hnd hr hr2 hid2
        subst heq
        simp [hpend]
      | ok p =>
        obtain ⟨res, db2⟩ := p
        obtain ⟨hresid, hdb2⟩ := create_ok_inv db req now newId tm res db2 hc
        simp only [applyOp, hc] at hr2
        rw [hdb2] at hr2
        rcases List.mem_append.mp hr2 with hr2m | hr2m
        · obtain ⟨x, hx, hxr⟩ := List.mem_map.mp hr2m
          by_cases hxe : isExpiredPending now x
          · rw [if_pos hxe] at hxr
            cases hxr
            simp
          · rw [if_neg hxe] at hxr
            cases hxr
            have heq := mem_id_unique hnd hr hx hid2
            subst heq
            simp [hpend]
        · have hres2 : r2 = res := by simpa using hr2m
          subst hres2
          have hrid : r.id = newId := by rw [← hid2, hresid]
          exact absurd hrid (hfresh req newId tm rfl r hr)
    | update id' req tm =>
      cases hu : updateReservationService db id' req now tm with
      | error err =>
        simp only [applyOp, hu] at hr2
        have heq := mem_id_unique hnd hr hr2 hid2
        subst heq
        simp [hpend]
      | ok db2 =>
        simp only [applyOp, hu] at hr2
        obtain ⟨x, hx, hxid, hxst, hxex⟩ := update_ok_inv db id' req now tm db2 hu r2 hr2
        have hxr : x.id = r.id := by rw [← hxid, hid2]
        have heq := mem_id_unique hnd hr hx hxr
        subst heq
        rw [hxst, hpend]
        simp
    | cancel id' =>
      cases hcc : cancelReservationService db.reservations id' now with
      | error err =>
        simp only [applyOp, hcc] at hr2
        have heq := mem_id_unique hnd hr hr2 hid2
        subst heq
        simp [hpend]
      | ok rs2 =>
        simp only [applyOp, hcc] at hr2
        unfold cancelReservationService at hcc
        split at hcc
        · exact absurd hcc (by simp)
        · split at hcc
          · cases hcc
            have heq := mem_id_unique hnd hr hr2 hid2
            subst heq
            simp [hpend]
          · cases hcc
            obtain ⟨x, hx, hxid, hcases⟩ :=
              updateById_cancel_cases db.reservations id'
                (fun r3 => { r3 with status := RStatus.cancelled, updatedAt := now })
                (fun y => rfl) (fun y => rfl) r2 hr2
            rcases hcases with hcan | hsame
            · rw [hcan]
              simp
            · have hxr : x.id = r.id := by rw [← hxid, hid2]
              have heq := mem_id_unique hnd hr hx hxr
              subst heq
              rw [hsame, hpend]
              simp
    | approve id' =>
      cases ha : approvePendingReservation db.reservations id' now with
      | error err =>
        simp only [applyOp, ha] at hr2
        have heq := mem_id_unique hnd hr hr2 hid2
        subst heq
        simp [hpend]
      | ok rs2 =>
        simp only [applyOp, ha] at hr2
        obtain ⟨r0, hfind0, hst0, hnex0, hrs2⟩ := approve_ok_inv _ _ _ _ ha
        rw [hrs2] at hr2
        obtain ⟨x, hx, hxr⟩ := List.mem_map.mp hr2
        by_cases hq : (x.id == id') = true
        · rw [if_pos hq] at hxr
          cases hxr
          have hxidr : x.id = r.id := hid2
          have hxeq : x = r := mem_id_unique hnd hr hx hxidr
          have hq2 : id' = r.id := by
            rw [← hxidr]
            exact (beq_iff_eq.mp hq).symm
          rw [hq2, hfindr] at hfind0
          have hr0 : r0 = r := (Option.some.inj hfind0).symm
          subst hr0
          exact absurd hlt (hnex0 e (by rw [← hexp]))
        · rw [if_neg hq] at hxr
          cases hxr
          have heq := mem_id_unique hnd hr hx hid2
          subst heq
          simp [hpend]
    | reject id' =>
      cases hrj : rejectPendingReservation db.reservations id' now with
      | error err =>
        simp only [applyOp, hrj] at hr2
        have heq := mem_id_unique hnd hr hr2 hid2
        subst heq
        simp [hpend]
      | ok rs2 =>
        simp only [applyOp, hrj] at hr2
        unfold rejectPendingReservation at hrj
        split at hrj
        · exact absurd hrj (by simp)
        · split at hrj
          · exact absurd hrj (by simp)
          · cases hrj
            obtain ⟨x, hx, hxid, hcases⟩ :=
              updateById_cancel_cases db.reservations id'
                (fun r3 => { r3 with status := RStatus.cancelled, expiresAt := none, updatedAt := now })
                (fun y => rfl) (fun y => rfl) r2 hr2
            rcases hcases with hcan | hsame
            · rw [hcan]
              simp
            · have hxr : x.id = r.id := by rw [← hxid, hid2]
              have heq := mem_id_unique hnd hr hx hxr
              subst heq
              rw [hsame, hpend]
              simp
    | expire =>
      simp only [applyOp, expirePendingHolds] at hr2
      obtain ⟨x, hx, hxr⟩ := List.mem_map.mp hr2
      by_cases hxe : isExpiredPending now x
      · rw [if_pos hxe] at hxr
        cases hxr
        simp
      · rw [if_neg hxe] at hxr
        cases hxr
        have heq := mem_id_unique hnd hr hx hid2
        subst heq
        simp [hpend]

end Woki

namespace Woki

/-- A concrete expired pending hold for the C9 witness. -/
def c9Hold : Reservation :=
  ⟨1, "R1", "S1", [1], 8, 1000, 1090, RStatus.pending, some 100, 0⟩

/-- C9 witness store: one restaurant, sector, table and the expired hold. -/
def c9Db : Db :=
  ⟨[⟨"R1", 0, none, none, none, none, none, none, none, none⟩],
   [⟨"S1", "R1"⟩], [⟨1, "S1", 2, 4⟩], [c9Hold]⟩

/-- C9 witness: at now = 200 the hold expired at 100 is rejected by approve
with InvalidFormat, and no lifecycle operation lets any row with its id
become CONFIRMED. -/
theorem c9_expiry_witness :
    approvePendingReservation c9Db.reservations c9Hold.id 200
        = .error SvcErr.invalidFormat ∧
    ∀ op : Op,
      (∀ req newId tm, op = Op.create req newId tm →
        ∀ x ∈ c9Db.reservations, x.id ≠ newId) →
      ∀ r2 ∈ (applyOp c9Db op 200).reservations, r2.id = c9Hold.id →
        r2.status ≠ RStatus.confirmed :=
  c9_expiry_monotonicity c9Db 200 c9Hold 100 (by decide) (by decide) (by decide)
    (by decide) (by decide)

end Woki

namespace Woki

/-- A concrete stored reservation for the C1 witness. -/
def c1Res : Reservation :=
  ⟨1, "R1", "S1", [1], 2, 1200, 1275, RStatus.confirmed, none, 0⟩

/-- C1 witness: the characterization applied at a concrete store and query
window. -/
theorem c1_overlap_witness :
    c1Res ∈ getOverlappingReservations [c1Res] [1] 1200 1300 none ↔
      c1Res ∈ [c1Res] ∧
        (c1Res.status = RStatus.confirmed ∨ c1Res.status = RStatus.pending) ∧
        (∀ ex, (none : Option Nat) = some ex → c1Res.id ≠ ex) ∧
        c1Res.startTime < 1300 ∧ c1Res.endTime > 1200 ∧
        ∃ t ∈ c1Res.tableIds, t ∈ [1] :=
  c1_overlap_query_characterization.1 [c1Res] [1] 1200 1300 none c1Res

/-- C4 witness: the slot characterization applied at the counterexample's
shift and slot. -/
theorem c4_slot_witness :
    ((1335 : Int) ∈ generate15MinSlots 0 (some [⟨1200, 1425⟩]) ↔
      ∃ sh2 ∈ [Shift.mk 1200 1425], ∃ k : Nat,
        (1335 : Int) = 0 + sh2.startMin + 15 * k ∧
        (1335 : Int) ≤ max ((0 : Int) + sh2.startMin) ((0 : Int) + sh2.endMin - 90)) ∧
    ((1335 : Int) ∈ generate15MinSlots 0 none ↔
      ∃ k : Nat, (1335 : Int) = 0 + 15 * k ∧ (1335 : Int) ≤ 0 + (24 * 60 - 90)) :=
  c4_slot_generation_amended 0 ⟨1200, 1425⟩ [] 1335

/-- C5 witness: the duration policy applied to the rule table
[(2,75),(4,90)] — party 3 takes the least covering threshold, party 10
falls back to the largest threshold. -/
theorem c5_duration_witness :
    ((∃ r ∈ [DurationRule.mk 2 75, DurationRule.mk 4 90], 3 ≤ r.maxPartySize) ∧
      ∃ r ∈ [DurationRule.mk 2 75, DurationRule.mk 4 90], 3 ≤ r.maxPartySize ∧
        calculateReservationDuration 3
          (some [DurationRule.mk 2 75, DurationRule.mk 4 90]) 90 = r.durationMinutes ∧
        ∀ r2 ∈ [DurationRule.mk 2 75, DurationRule.mk 4 90], 3 ≤ r2.maxPartySize →
          r.maxPartySize ≤ r2.maxPartySize) ∧
    ((∀ r ∈ [DurationRule.mk 2 75, DurationRule.mk 4 90], r.maxPartySize < 10) ∧
      ∃ r ∈ [DurationRule.mk 2 75, DurationRule.mk 4 90],
        calculateReservationDuration 10
          (some [DurationRule.mk 2 75, DurationRule.mk 4 90]) 90 = r.durationMinutes ∧
        ∀ r2 ∈ [DurationRule.mk 2 75, DurationRule.mk 4 90],
          r2.maxPartySize ≤ r.maxPartySize) :=
  ⟨⟨by decide,
    (c5_duration_policy 3 [DurationRule.mk 2 75, DurationRule.mk 4 90] 90).2.1
      (by decide)⟩,
   ⟨by decide,
    (c5_duration_policy 10 [DurationRule.mk 2 75, DurationRule.mk 4 90] 90).2.2
      (by decide) (by decide)⟩⟩

end Woki
